import Mathlib

/-!
Verification development for the o876-rudimentary-reactor engine
(src/Reactor.js).  The engine intercepts reads and writes on a state tree,
records for each getter the (node, property) pairs it read during its last
evaluation, caches getter results, and invalidates caches on writes.

The shallow embedding below follows the source:

* JavaScript object reference identity is modelled by `NodeId` (a `Nat`).
* `DependencyRegistry` is modelled from the spec (section 4.2): the file
  `DependencyRegistry.js` is required by `Reactor.js` but is not part of the
  sources under `src/`; the spec describes it as a set of (node identity, key)
  pairs with idempotent `add`, a two-argument membership test `has(node, key)`,
  a one-argument form `has(node)` meaning "any key at all for this node", and
  `reset()` clearing all entries.
* `track`, `trigger`, `runGetter` and the proxy `set` trap are translated from
  `Reactor.js`.  `trigger` is recursive in the source with no structural bound,
  so it takes a fuel argument bounding the recursion depth; `none` models
  non-termination (stack overflow) at that depth.
* Getter bodies are embedded as a list of read operations followed by a pure
  function computing the result from the values read (`GBody`).  Read
  operations cover: a tracked property read through the object proxy's `get`
  trap, a read of another getter, and a tracked array aggregation through one
  of the `ARRAY_TRACKED_METHODS` wrappers installed by `proxifyArray`.
* `GetterData.evalCount` is ghost instrumentation counting executions of the
  getter body; it changes exactly when the source runs `pEffect`.
-/

namespace RudiReactor

/-- Node identity: models JavaScript object reference identity. -/
abbrev NodeId := Nat

/-- Property keys (JavaScript property names; `""` is the collection-wide key
used by `proxifyArray`). -/
abbrev Key := String

/-- Values held in state slots and getter caches.  `fnVal` marks
function-valued properties (excluded from tracking by `Reactor.track`);
`arrRef n` and `objRef n` model references to the composite node `n`,
carrying the `Array.isArray` distinction that `Reactor.getType` makes on a
value (lines 312-327).  Equality of references is reference identity, as for
JavaScript `===`. -/
inductive Value where
  | undefV : Value
  | num : Int → Value
  | fnVal : Value
  | arrRef : NodeId → Value
  | objRef : NodeId → Value
deriving DecidableEq, Repr

/-- An entry of a dependency registry: a (node identity, property key) pair. -/
structure DepEntry where
  node : NodeId
  key : Key
deriving DecidableEq, Repr

/-- Modelled from the spec: `DependencyRegistry.js` is required by `Reactor.js`
but absent from `src/`.  Spec section 4.2: per getter, a set of
(node identity, key) pairs. -/
structure DependencyRegistry where
  entries : List DepEntry
deriving DecidableEq, Repr

/-- Modelled from the spec: `add(node, key)` is an idempotent insert. -/
def DependencyRegistry.add (d : DependencyRegistry) (n : NodeId) (k : Key) :
    DependencyRegistry :=
  if DepEntry.mk n k ∈ d.entries then d else ⟨DepEntry.mk n k :: d.entries⟩

/-- Modelled from the spec: the two-argument membership test `has(node, key)`. -/
def DependencyRegistry.hasPair (d : DependencyRegistry) (n : NodeId) (k : Key) :
    Bool :=
  d.entries.any (fun e => decide (e.node = n ∧ e.key = k))

/-- Modelled from the spec: the one-argument form `has(node)` — does this
registry contain any key at all for `node` (used for collection-wide
invalidation). -/
def DependencyRegistry.hasNode (d : DependencyRegistry) (n : NodeId) : Bool :=
  d.entries.any (fun e => decide (e.node = n))

/-- Modelled from the spec: `reset()` clears all entries. -/
def DependencyRegistry.reset : DependencyRegistry := ⟨[]⟩

/-- The per-getter record created by `defineGetter` (lines 420-426 of
Reactor.js): `_cache`, `_invalidCache`, and `_depreg`.  `nodeId` is the
reference identity of this record itself — `trigger` passes the record as a
target (`this.trigger(gns, '_cache')`), so the record is a node like any
other.  `evalCount` is ghost instrumentation counting body executions. -/
structure GetterData where
  cache : Value
  invalidCache : Bool
  nodeId : NodeId
  depreg : DependencyRegistry
  evalCount : Nat
deriving DecidableEq, Repr

/-- The key of the cache slot used by `runGetter`/`trigger`. -/
def cacheKey : Key := "_cache"

/-- State-node slots: (node, key) ↦ value.  A listed entry with value `undefV`
models a present key holding `undefined` (relevant for the `property in target`
test of the `set` trap). -/
abbrev Heap := List (NodeId × Key × Value)

/-- The `_getterData` table, keyed by getter name in definition order. -/
abbrev GData := List (String × GetterData)

/-- The mutable engine state: the state tree slots, the getter records, and
`_runningEffects` (names of getters currently evaluating, top first). -/
structure Engine where
  heap : Heap
  gdata : GData
  stack : List String
deriving DecidableEq, Repr

/-- Raw slot read (`target[property]` on a raw state node). -/
def heapGet : Heap → NodeId → Key → Value
  | [], _, _ => .undefV
  | (n', k', v) :: rest, n, k =>
      if n' = n ∧ k' = k then v else heapGet rest n k

/-- Raw slot write (`Reflect.set` on a raw state node). -/
def heapSet : Heap → NodeId → Key → Value → Heap
  | [], n, k, v => [(n, k, v)]
  | (n', k', v') :: rest, n, k, v =>
      if n' = n ∧ k' = k then (n', k', v) :: rest
      else (n', k', v') :: heapSet rest n k v

/-- The `property in target` test of the `set` trap. -/
def keyExists : Heap → NodeId → Key → Bool
  | [], _, _ => false
  | (n', k', _) :: rest, n, k =>
      if n' = n ∧ k' = k then true else keyExists rest n k

/-- `this._getterData[name]` lookup. -/
def lookupG : GData → String → Option GetterData
  | [], _ => none
  | (n', d) :: rest, n => if n' = n then some d else lookupG rest n

/-- In-place mutation of the getter record called `n` (JavaScript mutates the
record object; the association list keeps keys and order). -/
def updateG : GData → String → (GetterData → GetterData) → GData
  | [], _, _ => []
  | (n', d) :: rest, n, f =>
      if n' = n then (n', f d) :: updateG rest n f
      else (n', d) :: updateG rest n f

/-- Find the getter record with reference identity `n` (used to read a getter
record's `_cache` slot as `target[property]`). -/
def findByNode : GData → NodeId → Option GetterData
  | [], _ => none
  | (_, d) :: rest, n => if d.nodeId = n then some d else findByNode rest n

/-- Untracked `target[property]` read used by `track`'s function-value test:
a getter record exposes its `_cache` slot, every other node is a state node. -/
def readRaw (eng : Engine) (n : NodeId) (k : Key) : Value :=
  match findByNode eng.gdata n with
  | some g => if k = cacheKey then g.cache else .undefV
  | none => heapGet eng.heap n k

/-- `Reactor.track` (Reactor.js lines 273-282): a read of a function-valued
property is not tracked; otherwise (target, property) is added to the
dependency registry of every running effect. -/
def track (eng : Engine) (n : NodeId) (k : Key) : Engine :=
  if readRaw eng n k = .fnVal then eng
  else
    { eng with
      gdata := eng.stack.foldl
        (fun gd h => updateG gd h (fun g => { g with depreg := g.depreg.add n k }))
        eng.gdata }

/-- The invalidation test of `Reactor.trigger` (lines 298-304): with no
property, `depreg.has(target)`; with a property, `depreg.has(target, property)`. -/
def matchCond (d : GetterData) (target : NodeId) (prop : Option Key) : Bool :=
  match prop with
  | none => d.depreg.hasNode target
  | some p => d.depreg.hasPair target p

/-- The iteration body of `Reactor.trigger` (lines 294-309), parameterised by
the recursive call `recur` (the source recursion `this.trigger(gns, '_cache')`).
For each getter name in order: look the record up afresh, test its registry
against (target, prop); on a match, first recurse on the record's own `_cache`
slot, then set `_invalidCache`. -/
def triggerGoP (recur : GData → NodeId → Option Key → Option GData) :
    List String → GData → NodeId → Option Key → Option GData
  | [], gd, _, _ => some gd
  | name :: rest, gd, target, prop =>
    match lookupG gd name with
    | none => none
    | some gns =>
      if matchCond gns target prop then
        match recur gd gns.nodeId (some cacheKey) with
        | none => none
        | some gd' =>
            triggerGoP recur rest
              (updateG gd' name (fun g => { g with invalidCache := true }))
              target prop
      else triggerGoP recur rest gd target prop

/-- `Reactor.trigger` (lines 290-310).  The source recursion has no structural
bound; `fuel` bounds the recursion depth and `none` models non-termination
(stack overflow) within that depth. -/
def triggerFuel : Nat → GData → NodeId → Option Key → Option GData
  | 0, gd, t, p => triggerGoP (fun _ _ _ => none) (gd.map Prod.fst) gd t p
  | fuel + 1, gd, t, p => triggerGoP (triggerFuel fuel) (gd.map Prod.fst) gd t p

/-- Sum of the numeric slots of node `n`, in slot order: the result of
`Array.prototype.reduce((prev, curr) => prev + curr, 0)` over the array
node `n`. -/
def sumNums (h : Heap) (n : NodeId) : Int :=
  h.foldl (fun acc e =>
    if e.1 = n then
      match e.2.2 with
      | .num m => acc + m
      | _ => acc
    else acc) 0

/-- One read step of a getter body. -/
inductive ReadOp where
  /-- A property read through the object proxy's `get` trap (lines 116-122):
  `track(target, property)` then `Reflect.get`. -/
  | rstate : NodeId → Key → ReadOp
  /-- A read of `getters.<name>`: the `_getterProxies` accessor calls
  `runGetter(name)` (lines 427-434). -/
  | rgetter : String → ReadOp
  /-- A numeric `reduce` through the tracked wrapper installed by
  `proxifyArray` (lines 336-343): `track(aClone, '')` then the reduction over
  the plain clone. -/
  | rreduceSum : NodeId → ReadOp

/-- A getter body: the reads it performs, in order, and the pure function
computing its result from the values read. -/
structure GBody where
  reads : List ReadOp
  compute : List Value → Value

/-- Execute a list of body reads, parameterised by the getter-reading recursive
call `recur` (which will be `runGetter` at smaller fuel). -/
def evalReadsP (recur : Engine → String → Option (Value × Engine)) :
    Engine → List ReadOp → List Value → Option (List Value × Engine)
  | eng, [], acc => some (acc, eng)
  | eng, r :: rest, acc =>
    match r with
    | .rstate n k =>
        let eng' := track eng n k
        evalReadsP recur eng' rest (acc ++ [heapGet eng'.heap n k])
    | .rgetter g =>
        match recur eng g with
        | none => none
        | some (v, eng') => evalReadsP recur eng' rest (acc ++ [v])
    | .rreduceSum n =>
        let eng' := track eng n ""
        evalReadsP recur eng' rest (acc ++ [.num (sumNums eng'.heap n)])

/-- `Reactor.runGetter` (lines 478-493): track the record's `_cache` slot,
return the cache while valid, otherwise reset the registry, push the effect,
run the body, store the result, clear the invalid flag, pop the effect.
`fuel` bounds nested getter reads. -/
def runGetter (bodies : String → Option GBody) : Nat → Engine → String → Option (Value × Engine)
  | 0 => fun _ _ => none
  | fuel + 1 => fun eng name =>
    match lookupG eng.gdata name, bodies name with
    | some gns, some body =>
      let eng1 := track eng gns.nodeId cacheKey
      if gns.invalidCache = false then some (gns.cache, eng1)
      else
        let eng2 := { eng1 with
          gdata := updateG eng1.gdata name
            (fun g => { g with depreg := DependencyRegistry.reset }) }
        let eng3 := { eng2 with stack := name :: eng2.stack }
        match evalReadsP (runGetter bodies fuel) eng3 body.reads [] with
        | none => none
        | some (vals, eng4) =>
          let v := body.compute vals
          let eng5 := { eng4 with
            gdata := updateG eng4.gdata name
              (fun g => { g with cache := v, invalidCache := false,
                                 evalCount := g.evalCount + 1 }) }
          some (v, { eng5 with stack := eng5.stack.drop 1 })
    | _, _ => none

/-- The slots of node `n`, in heap order (the elements of an array node). -/
def slotsOf (h : Heap) (n : NodeId) : List (Key × Value) :=
  h.filterMap (fun e => if e.1 = n then some (e.2.1, e.2.2) else none)

/-- Remove every slot of node `n` (the removal half of
`tp.splice(0, tp.length, ...)`). -/
def delNode (h : Heap) (n : NodeId) : Heap :=
  h.filter (fun e => decide (e.1 ≠ n))

/-- `tp.splice(0, tp.length, ...value)` on the raw slots: the elements of
`dst` are replaced, in place, by the wrapped elements of `src`.  The core
model's array elements are scalars or references to already-reactive
objects, on which `proxify` is the identity (the default branch of
`proxify`, lines 405-407, and the tagged early return of `proxifyObject`,
line 373), so the copy is verbatim; raw composite elements belong to the
wrap model (`proxifyJ`). -/
def spliceInto (h : Heap) (dst src : NodeId) : Heap :=
  delNode h dst ++ (slotsOf h src).map (fun p => (dst, p.1, p.2))

/-- A node identity strictly above every node the engine mentions: a fresh
allocation. -/
def freshNode (eng : Engine) : NodeId :=
  (eng.heap.foldl (fun a e => max a e.1) 0) +
    (eng.gdata.foldl (fun a q => max a q.2.nodeId) 0) + 1

/-- The clone built by `proxifyArray` (line 335): a fresh node `dst` whose
slots are the wrapped elements of `src` — verbatim under the same element
restriction as `spliceInto`. -/
def copySlots (h : Heap) (src dst : NodeId) : Heap :=
  h ++ (slotsOf h src).map (fun p => (dst, p.1, p.2))

/-- The `set` trap of `_handler` (Reactor.js lines 123-152).  A write of the
identical value returns immediately (no tracking, no trigger, no write); a
write to a key not on the target first triggers the whole node; then
`trigger(target, property)`; then the type switch on the incoming value
(lines 131-150): an array written over an array runs
`tp.splice(0, tp.length, ...value)` — the `splice` wrapper installed by
`proxifyArray` (lines 344-351) fires `trigger(tp, '')` and replaces the
elements in place, and no `Reflect.set` runs; an array written over a
non-array is wrapped by `proxifyArray` into a fresh clone, which is then
stored; an object value is wrapped by `proxifyObject` — the core model's
written object references denote already-reactive objects, which the tagged
early return (line 373) passes through unchanged — and stored; any other
value is stored as is. -/
def setState (fuel : Nat) (eng : Engine) (n : NodeId) (k : Key) (v : Value) :
    Option Engine :=
  if v = heapGet eng.heap n k then some eng
  else
    let step1 : Option GData :=
      if keyExists eng.heap n k then some eng.gdata
      else triggerFuel fuel eng.gdata n none
    match step1 with
    | none => none
    | some gd1 =>
      match triggerFuel fuel gd1 n (some k) with
      | none => none
      | some gd2 =>
        match v, heapGet eng.heap n k with
        | Value.arrRef m, Value.arrRef tp =>
          match triggerFuel fuel gd2 tp (some "") with
          | none => none
          | some gd3 =>
              some { eng with gdata := gd3, heap := spliceInto eng.heap tp m }
        | Value.arrRef m, _ =>
          let fresh := freshNode eng
          some { eng with gdata := gd2, heap := heapSet (copySlots eng.heap m fresh) n k (Value.arrRef fresh) }
        | Value.objRef m, _ =>
          some { eng with gdata := gd2, heap := heapSet eng.heap n k (Value.objRef m) }
        | _, _ =>
          some { eng with gdata := gd2, heap := heapSet eng.heap n k v }

/-- An assignment to an index of a reactive array.  `proxifyArray`
(lines 334-365) returns a plain clone with no `Proxy` installed — `proxify`
(lines 397-408) calls `createProxy` only through `proxifyObject` — so an index
write on the clone runs no trap: nothing is tracked or triggered, the element
is simply stored. -/
def rawIndexWrite (eng : Engine) (n : NodeId) (k : Key) (v : Value) : Engine :=
  { eng with heap := heapSet eng.heap n k v }

/-- A sequence of intercepted property writes. -/
def applyWrites (fuel : Nat) : Engine → List (NodeId × Key × Value) → Option Engine
  | eng, [] => some eng
  | eng, w :: ws =>
    match setState fuel eng w.1 w.2.1 w.2.2 with
    | none => none
    | some eng' => applyWrites fuel eng' ws

/-- The validity flag of getter `g` (true = `_invalidCache` set). -/
def invalidOf (eng : Engine) (g : String) : Bool :=
  match lookupG eng.gdata g with
  | some d => d.invalidCache
  | none => true

/-- The cached value of getter `g`. -/
def cacheOf (eng : Engine) (g : String) : Value :=
  match lookupG eng.gdata g with
  | some d => d.cache
  | none => .undefV

/-- The ghost body-execution counter of getter `g`. -/
def countOf (eng : Engine) (g : String) : Nat :=
  match lookupG eng.gdata g with
  | some d => d.evalCount
  | none => 0

/-!
Construction-time type checking (`defineGetter`, lines 415-435, and the
constructor loop, lines 163-165).  `TVal` is the closed set of JavaScript value
kinds distinguished by `Reactor.getType` (lines 312-327).
-/

/-- A JavaScript value as classified by `Reactor.getType`. -/
inductive TVal where
  | vnum : Int → TVal
  | vstr : String → TVal
  | vbool : Bool → TVal
  | vfun : TVal
  | undefT : TVal
  | vnull : TVal
  | vobj : TVal
  | varr : TVal
deriving DecidableEq, Repr

/-- `Reactor.getType` (lines 312-327): `typeof`, refined on `'object'` into
`'null'`, `'array'` or `'object'`. -/
def getTypeT : TVal → String
  | .vnum _ => "number"
  | .vstr _ => "string"
  | .vbool _ => "boolean"
  | .vfun => "function"
  | .undefT => "undefined"
  | .vnull => "null"
  | .vobj => "object"
  | .varr => "array"

/-- The type check of `defineGetter` (lines 416-419): a non-function getter
value raises a `TypeError` whose message names the getter and the kind of the
value supplied. -/
def defineGetterT (name : String) (g : TVal) : Except String Unit :=
  if getTypeT g = "function" then Except.ok ()
  else Except.error
    ("Getter \"" ++ name ++ "\" must be a function ; \"" ++ getTypeT g ++ "\" was given.")

/-- The constructor's getter loop (lines 163-165): `defineGetter` for each
supplied binding in order; the first failure aborts construction, so an
error means no engine value is ever produced for the caller. -/
def defineGettersT : List (String × TVal) → Except String (List String)
  | [] => Except.ok []
  | (n, g) :: rest =>
    match defineGetterT n g with
    | Except.error e => Except.error e
    | Except.ok _ =>
      match defineGettersT rest with
      | Except.error e => Except.error e
      | Except.ok ns => Except.ok (n :: ns)

/-!
Mutation dispatch (`defineMutation`, lines 437-471).  The wrapper installed
for each mutation name calls the user-supplied body and, after it returns,
emits one `'mutation'` event `{name, payload}`; a body that throws skips the
emit and the error propagates to the caller.  Both parameter orders install
the same run-then-emit wrapper, so the body is abstracted as a function of
the payload that either returns a value or throws.
-/

/-- One wrapped mutation call (the closure stored in `this._mutations[name]`):
run the body; on normal return append the `{name, payload}` event to the
event log; on a throw leave the log unchanged and propagate the error. -/
def runMutationCall (bodies : String → Value → Except String Value)
    (name : String) (payload : Value) (log : List (String × Value)) :
    Except String Value × List (String × Value) :=
  match bodies name payload with
  | Except.error e => (Except.error e, log)
  | Except.ok r => (Except.ok r, log ++ [(name, payload)])

/-- A sequence of mutation calls, each given as (name, payload), with a caller
that catches errors and continues; returns the per-call results and the
accumulated event log. -/
def runMutationSeq (bodies : String → Value → Except String Value) :
    List (String × Value) → List (Except String Value) × List (String × Value)
  | [] => ([], [])
  | c :: cs =>
    let r := runMutationCall bodies c.1 c.2 []
    let rest := runMutationSeq bodies cs
    (r.1 :: rest.1, r.2 ++ rest.2)

/-!
The wrapping layer (`proxify` / `proxifyObject` / `proxifyArray` /
`isReactive`, lines 199-208 and 334-408), as a model of the JavaScript value
graph.  `JsVal` carries explicit allocation identities (`Nat`) standing for
reference identity; `objV id tagged frozen fields` is an object, where
`tagged` is the truthiness of its `SYMBOL_PROXY` slot (a `Proxy` wrapper
answers that slot's read with `target[SYMBOL_PROXY] || true`, so a wrapper is
always tagged).  Arrays carry no tag: `proxifyArray` never sets
`SYMBOL_PROXY` and never installs a `Proxy`.  The counter `σ` models both the
`_proxyId` sequence and fresh heap allocation: every identity it hands out is
new.
-/

/-- A JavaScript value with explicit reference identities. -/
inductive JsVal where
  | undefV : JsVal
  | nullV : JsVal
  | prim : Int → JsVal
  | fnV : Nat → JsVal
  | objV : Nat → Bool → Bool → List (Key × JsVal) → JsVal
  | arrV : Nat → List JsVal → JsVal

/-- `Reactor.getType` on a `JsVal` (primitives are modelled as numbers). -/
def getTypeJ : JsVal → String
  | .undefV => "undefined"
  | .nullV => "null"
  | .prim _ => "number"
  | .fnV _ => "function"
  | .objV _ _ _ _ => "object"
  | .arrV _ _ => "array"

/-- `Reactor.isReactive` (lines 206-208): true for `null`/`undefined`,
otherwise the truthiness of the `SYMBOL_PROXY` tag.  Arrays, functions and
primitives never carry the tag. -/
def isReactiveJ : JsVal → Bool
  | .nullV => true
  | .undefV => true
  | .objV _ tg _ _ => tg
  | _ => false

mutual
/-- `Reactor.proxify` (lines 397-408) with the allocation counter `σ`:
objects go through `proxifyObject` (lines 372-390) — frozen/sealed or
already-reactive objects are returned unchanged, otherwise the original is
tagged, a clone of its fields is built with every child wrapped, and a fresh
`Proxy` identity is returned; arrays go through `proxifyArray`
(lines 334-365) — always a fresh clone with every element wrapped, never an
early return; every other value is returned unchanged. -/
def proxifyJ : JsVal → Nat → JsVal × Nat
  | .objV id tg fr flds, σ =>
      if fr || tg then (.objV id tg fr flds, σ)
      else
        let res := proxifyFields flds (σ + 1)
        (.objV res.2 true false res.1, res.2 + 1)
  | .arrV _ es, σ =>
      let res := proxifyElems es σ
      (.arrV res.2 res.1, res.2 + 1)
  | v, σ => (v, σ)

/-- The field-cloning loop of `proxifyObject` (lines 384-388). -/
def proxifyFields : List (Key × JsVal) → Nat → List (Key × JsVal) × Nat
  | [], σ => ([], σ)
  | (k, v) :: rest, σ =>
      let r1 := proxifyJ v σ
      let r2 := proxifyFields rest r1.2
      ((k, r1.1) :: r2.1, r2.2)

/-- The element-cloning map of `proxifyArray` (line 335). -/
def proxifyElems : List JsVal → Nat → List JsVal × Nat
  | [], σ => ([], σ)
  | v :: rest, σ =>
      let r1 := proxifyJ v σ
      let r2 := proxifyElems rest r1.2
      (r1.1 :: r2.1, r2.2)
end

mutual
/-- What the wrap pass leaves behind on its raw input (the source mutates the
original: `proxifyObject` writes the `SYMBOL_PROXY` tag onto `oTarget` itself,
lines 376-382, before cloning, and recursively wraps every child of the
original).  Frozen/sealed or already-tagged objects are returned before any
tagging; arrays are never tagged, only their elements are visited. -/
def wrapEffect : JsVal → JsVal
  | .objV id tg fr flds =>
      if fr || tg then .objV id tg fr flds
      else .objV id true fr (wrapEffectFields flds)
  | .arrV id es => .arrV id (wrapEffectElems es)
  | v => v

/-- `wrapEffect` over object fields. -/
def wrapEffectFields : List (Key × JsVal) → List (Key × JsVal)
  | [] => []
  | (k, v) :: rest => (k, wrapEffect v) :: wrapEffectFields rest

/-- `wrapEffect` over array elements. -/
def wrapEffectElems : List JsVal → List JsVal
  | [] => []
  | v :: rest => wrapEffect v :: wrapEffectElems rest
end

/-!
The `set` trap with an explicit action trace (Reactor.js lines 123-152).
`Act` records, in execution order, the externally meaningful steps the trap
performs: the collection-wide `trigger(target)` for a fresh key, the keyed
`trigger(target, property)`, the `proxify` of a composite incoming value,
the in-place `splice` replacement used when an array is written over an
array, and the final `Reflect.set`.
-/

/-- One observable step of the `set` trap, in execution order. -/
inductive Act where
  | triggerNode : Act
  | triggerKey : Key → Act
  | wrapValue : Act
  | spliceReplace : Act
  | writeSlot : Key → Act
deriving DecidableEq, Repr

/-- JavaScript `===` on modelled values: primitives by value, composites and
functions by reference identity. -/
def jsEq : JsVal → JsVal → Bool
  | .undefV, .undefV => true
  | .nullV, .nullV => true
  | .prim a, .prim b => a == b
  | .fnV a, .fnV b => a == b
  | .objV a _ _ _, .objV b _ _ _ => a == b
  | .arrV a _, .arrV b _ => a == b
  | _, _ => false

/-- `target[property]` on the node's raw fields (`undefined` when absent). -/
def fieldsGet : List (Key × JsVal) → Key → JsVal
  | [], _ => .undefV
  | (k', v) :: rest, k => if k' = k then v else fieldsGet rest k

/-- `property in target`. -/
def fieldsHas : List (Key × JsVal) → Key → Bool
  | [], _ => false
  | (k', _) :: rest, k => if k' = k then true else fieldsHas rest k

/-- `Reflect.set`: update the key in place or append it. -/
def fieldsSet : List (Key × JsVal) → Key → JsVal → List (Key × JsVal)
  | [], k, v => [(k, v)]
  | (k', v') :: rest, k, v =>
      if k' = k then (k', v) :: rest else (k', v') :: fieldsSet rest k v

/-- The `set` trap (lines 123-152) on one object node, returning the node's
updated fields, the allocation counter, and the trace of steps in execution
order.  Mirrors the source: identical value → immediate return (no trigger,
no write); fresh key → `trigger(target)` first; then `trigger(target,
property)`; then the type switch — array over array: in-place `splice` with
wrapped elements and no `Reflect.set`; array over non-array or object:
`proxify` the value; finally `Reflect.set`. -/
def handlerSet (flds : List (Key × JsVal)) (k : Key) (v : JsVal) (σ : Nat) :
    List (Key × JsVal) × Nat × List Act :=
  if jsEq v (fieldsGet flds k) then (flds, σ, [])
  else
    let acts0 : List Act := if fieldsHas flds k then [] else [Act.triggerNode]
    let acts1 := acts0 ++ [Act.triggerKey k]
    let tp := fieldsGet flds k
    if getTypeJ v = "array" then
      if getTypeJ tp = "array" then
        match v, tp with
        | .arrV _ es, .arrV tid _ =>
            let r := proxifyElems es σ
            (fieldsSet flds k (.arrV tid r.1), r.2, acts1 ++ [Act.spliceReplace])
        | _, _ => (flds, σ, acts1)
      else
        let r := proxifyJ v σ
        (fieldsSet flds k r.1, r.2, acts1 ++ [Act.wrapValue, Act.writeSlot k])
    else if getTypeJ v = "object" then
      let r := proxifyJ v σ
      (fieldsSet flds k r.1, r.2, acts1 ++ [Act.wrapValue, Act.writeSlot k])
    else
      (fieldsSet flds k v, σ, acts1 ++ [Act.writeSlot k])

/-!
Relations used to state what `trigger` and `track` may change.
-/

/-- What one `trigger` pass may do to a single getter record: everything is
preserved except that `_invalidCache` may additionally become set. -/
def EntryRel (a b : String × GetterData) : Prop :=
  b.1 = a.1 ∧ b.2.nodeId = a.2.nodeId ∧ b.2.depreg = a.2.depreg ∧
  b.2.cache = a.2.cache ∧ b.2.evalCount = a.2.evalCount ∧
  (a.2.invalidCache = true → b.2.invalidCache = true)

/-- `trigger` relates its input and output getter tables pointwise. -/
def TrigRel (gd gd' : GData) : Prop := List.Forall₂ EntryRel gd gd'

/-- What `track` may do to a single getter record: only the dependency
registry changes. -/
def TrackEntryRel (a b : String × GetterData) : Prop :=
  b.1 = a.1 ∧ b.2.nodeId = a.2.nodeId ∧ b.2.cache = a.2.cache ∧
  b.2.invalidCache = a.2.invalidCache ∧ b.2.evalCount = a.2.evalCount

/-- `track` relates its input and output getter tables pointwise. -/
def TrackRel (gd gd' : GData) : Prop := List.Forall₂ TrackEntryRel gd gd'

/-- The four properties of a trigger-recursion candidate needed to reason
about `triggerGoP` compositionally; `triggerFuel fuel` satisfies them for
every `fuel`. -/
structure RecurGood (recur : GData → NodeId → Option Key → Option GData) : Prop where
  rel : ∀ gd t p gd', recur gd t p = some gd' → TrigRel gd gd'
  flags : ∀ gd t p gd' name a, recur gd t p = some gd' →
    lookupG gd name = some a → matchCond a t p = true →
    ∃ b, lookupG gd' name = some b ∧ b.invalidCache = true
  nf : ∀ gd t p gd', recur gd t p = some gd' →
    ∀ x xa xb, lookupG gd x = some xa → xa.invalidCache = false →
      lookupG gd' x = some xb → xb.invalidCache = true →
      ∀ y ya, lookupG gd y = some ya → ya.depreg.hasPair xa.nodeId cacheKey = true →
        ∃ yb, lookupG gd' y = some yb ∧ yb.invalidCache = true
  gun : ∀ gd t p gd', recur gd t p = some gd' →
    ∀ g gns, lookupG gd g = some gns → matchCond gns t p = false →
      (∀ q ∈ gd, gns.depreg.hasPair q.2.nodeId cacheKey = false) →
      lookupG gd' g = some gns

/-- What one successful trigger pass guarantees, stated so that passes
compose: pointwise `EntryRel` preservation, together with cascade
propagation — whenever a getter `x` goes from valid to invalid across the
pass, every getter whose registry holds `x`'s cache slot is invalid
afterwards. -/
def NfStep (gd gd' : GData) : Prop :=
  TrigRel gd gd' ∧
  ∀ x xa xb, lookupG gd x = some xa → xa.invalidCache = false →
    lookupG gd' x = some xb → xb.invalidCache = true →
    ∀ y ya, lookupG gd y = some ya →
      ya.depreg.hasPair xa.nodeId cacheKey = true →
      ∃ yb, lookupG gd' y = some yb ∧ yb.invalidCache = true

/-- Invariant shape of an engine transition: getter names and node identities,
the heap, and the effect stack are all preserved (what a getter read leaves
untouched). -/
def keyNode (gd : GData) : List (String × NodeId) :=
  gd.map (fun p => (p.1, p.2.nodeId))

/-- Preservation of shape by an engine step. -/
def EShape (e e' : Engine) : Prop :=
  keyNode e'.gdata = keyNode e.gdata ∧ e'.heap = e.heap ∧ e'.stack = e.stack

/-- Ghost execution counters never decrease. -/
def CountMono (e e' : Engine) : Prop :=
  ∀ g a, lookupG e.gdata g = some a →
    ∃ b, lookupG e'.gdata g = some b ∧ a.evalCount ≤ b.evalCount

/-- A rank function witnessing that the relation "getter `y` recorded getter
`x`'s cache slot in its registry" is acyclic: every dependent has strictly
smaller rank.  The existence of such a function is exactly acyclicity of the
cache-slot dependency graph. -/
def measCond (m : String → Nat) (gd : GData) : Prop :=
  ∀ x xd y yd, lookupG gd x = some xd → lookupG gd y = some yd →
    yd.depreg.hasPair xd.nodeId cacheKey = true → m y < m x

/-- A getter record whose registry holds the other cycle getter's cache slot
(already invalid: its `_invalidCache` flag is set). -/
def gnsCycA : GetterData :=
  { cache := Value.undefV, invalidCache := true, nodeId := 1000,
    depreg := ⟨[⟨1001, "_cache"⟩]⟩, evalCount := 0 }

/-- The second getter of the two-cycle, depending on the first one's cache
slot. -/
def gnsCycB : GetterData :=
  { cache := Value.undefV, invalidCache := true, nodeId := 1001,
    depreg := ⟨[⟨1000, "_cache"⟩]⟩, evalCount := 0 }

/-- A getter table in which the two getters' registries each contain the
other's cache slot. -/
def gdCyc : GData := [("A", gnsCycA), ("B", gnsCycB)]

/-- The dependency registry of getter `g`. -/
def depregOf (eng : Engine) (g : String) : DependencyRegistry :=
  match lookupG eng.gdata g with
  | some d => d.depreg
  | none => ⟨[]⟩

/-- The reference identity of a composite value (0 for primitives). -/
def idOf : JsVal → Nat
  | .objV id _ _ _ => id
  | .arrV id _ => id
  | .fnV id => id
  | _ => 0

/-!
Concrete engines used in the counterexamples and witnesses below.
-/

/-- One getter `g` reading `state.a` of node 1. -/
def bodiesC1 : String → Option GBody := fun n =>
  if n = "g" then
    some (GBody.mk [ReadOp.rstate 1 "a"] (fun vs => vs.getD 0 Value.undefV))
  else none

/-- Initial engine for `bodiesC1`: node 1 holds `a = 5`. -/
def engC1 : Engine :=
  { heap := [(1, "a", Value.num 5)],
    gdata := [("g", ⟨Value.undefV, true, 100, ⟨[]⟩, 0⟩)], stack := [] }

/-- `engC1` after the first read of `g`. -/
def engC1a : Engine :=
  { heap := [(1, "a", Value.num 5)],
    gdata := [("g", ⟨Value.num 5, false, 100, ⟨[⟨1, "a"⟩]⟩, 1⟩)], stack := [] }

/-- `engC1a` after the fresh-key write `state.b = 7` on node 1. -/
def engC1b : Engine :=
  { heap := [(1, "a", Value.num 5), (1, "b", Value.num 7)],
    gdata := [("g", ⟨Value.num 5, true, 100, ⟨[⟨1, "a"⟩]⟩, 1⟩)], stack := [] }

/-- `engC1b` after the second read of `g` (the body ran again). -/
def engC1c : Engine :=
  { heap := [(1, "a", Value.num 5), (1, "b", Value.num 7)],
    gdata := [("g", ⟨Value.num 5, false, 100, ⟨[⟨1, "a"⟩]⟩, 2⟩)], stack := [] }

/-- Two getters: `g1` reads `state.a` of node 1, `g2` reads `getters.g1`. -/
def bodiesD : String → Option GBody := fun n =>
  if n = "g1" then
    some (GBody.mk [ReadOp.rstate 1 "a"] (fun vs => vs.getD 0 Value.undefV))
  else if n = "g2" then
    some (GBody.mk [ReadOp.rgetter "g1"] (fun vs => vs.getD 0 Value.undefV))
  else none

/-- Initial engine for `bodiesD`. -/
def engD0 : Engine :=
  { heap := [(1, "a", Value.num 5)],
    gdata := [("g1", ⟨Value.undefV, true, 100, ⟨[]⟩, 0⟩),
      ("g2", ⟨Value.undefV, true, 101, ⟨[]⟩, 0⟩)], stack := [] }

/-- `engD0` after the first read of `g1`. -/
def engD1 : Engine :=
  { heap := [(1, "a", Value.num 5)],
    gdata := [("g1", ⟨Value.num 5, false, 100, ⟨[⟨1, "a"⟩]⟩, 1⟩),
      ("g2", ⟨Value.undefV, true, 101, ⟨[]⟩, 0⟩)], stack := [] }

/-- `engD1` after the first read of `g2`: `g1` was valid, so `g2`'s registry
holds only `g1`'s cache slot (node 100). -/
def engD2 : Engine :=
  { heap := [(1, "a", Value.num 5)],
    gdata := [("g1", ⟨Value.num 5, false, 100, ⟨[⟨1, "a"⟩]⟩, 1⟩),
      ("g2", ⟨Value.num 5, false, 101, ⟨[⟨100, cacheKey⟩]⟩, 1⟩)], stack := [] }

/-- `engD2` after the write `state.a = 6`: both getters invalidated. -/
def engD3 : Engine :=
  { heap := [(1, "a", Value.num 6)],
    gdata := [("g1", ⟨Value.num 5, true, 100, ⟨[⟨1, "a"⟩]⟩, 1⟩),
      ("g2", ⟨Value.num 5, true, 101, ⟨[⟨100, cacheKey⟩]⟩, 1⟩)], stack := [] }

/-- `engD3` after re-reading `g2`: both bodies ran again, `g2` now also holds
`g1`'s underlying dependency because `g1` re-evaluated inside `g2`'s effect. -/
def engD4 : Engine :=
  { heap := [(1, "a", Value.num 6)],
    gdata := [("g1", ⟨Value.num 6, false, 100, ⟨[⟨1, "a"⟩]⟩, 2⟩),
      ("g2", ⟨Value.num 6, false, 101, ⟨[⟨1, "a"⟩, ⟨100, cacheKey⟩]⟩, 2⟩)],
    stack := [] }

/-- `engD2` after a write to the untracked node 5 (`z = 1`): no getter record
changes. -/
def engD2z : Engine :=
  { heap := [(1, "a", Value.num 5), (5, "z", Value.num 1)],
    gdata := [("g1", ⟨Value.num 5, false, 100, ⟨[⟨1, "a"⟩]⟩, 1⟩),
      ("g2", ⟨Value.num 5, false, 101, ⟨[⟨100, cacheKey⟩]⟩, 1⟩)], stack := [] }

/-- `engC1a` after a write to the untracked node 5 (`z = 1`): nothing
changes in the getter table. -/
def engC1z : Engine :=
  { heap := [(1, "a", Value.num 5), (5, "z", Value.num 1)],
    gdata := [("g", ⟨Value.num 5, false, 100, ⟨[⟨1, "a"⟩]⟩, 1⟩)], stack := [] }

/-- The ArrayTest scenario: `state.items` (node 1, key `items`) refers to the
reactive array node 2 holding one element `0`; `getSum` reads `state.items`
and reduces it through the tracked `reduce` wrapper. -/
def engC8 : Engine :=
  { heap := [(1, "items", Value.arrRef 2), (2, "0", Value.num 0)],
    gdata := [("getSum", ⟨Value.undefV, true, 100, ⟨[]⟩, 0⟩)], stack := [] }

/-- The `getSum` getter of the ArrayTest scenario. -/
def bodiesC8 : String → Option GBody := fun n =>
  if n = "getSum" then
    some (GBody.mk [ReadOp.rstate 1 "items", ReadOp.rreduceSum 2]
      (fun vs => vs.getD 1 Value.undefV))
  else none

/-- `engC8` after the first read of `getSum` (cached 0). -/
def engC8a : Engine :=
  { heap := [(1, "items", Value.arrRef 2), (2, "0", Value.num 0)],
    gdata := [("getSum", ⟨Value.num 0, false, 100, ⟨[⟨2, ""⟩, ⟨1, "items"⟩]⟩, 1⟩)],
    stack := [] }

/-- `engC8a` after the plain (untrapped) index write `items[0] = 1`. -/
def engC8b : Engine :=
  { heap := [(1, "items", Value.arrRef 2), (2, "0", Value.num 1)],
    gdata := [("getSum", ⟨Value.num 0, false, 100, ⟨[⟨2, ""⟩, ⟨1, "items"⟩]⟩, 1⟩)],
    stack := [] }

/-- One-getter table with an acyclic (empty) cache-slot dependency graph, used
to witness trigger termination. -/
def gdW : GData := [("g", ⟨Value.undefV, false, 300, ⟨[⟨5, "a"⟩]⟩, 0⟩)]

/-- A getter reducing the reactive array node 2 through the tracked `reduce`
wrapper (its registry will hold only the collection pair `(2, "")`). -/
def bodiesE : String → Option GBody := fun n =>
  if n = "gArr" then
    some (GBody.mk [ReadOp.rreduceSum 2] (fun vs => vs.getD 0 Value.undefV))
  else none

/-- Initial engine for `bodiesE`: `state.xs` (node 1, key `xs`) holds the
reactive array node 2 with one element `0`; node 3 is another array, the value
about to be written over `xs`. -/
def engE0 : Engine :=
  { heap := [(1, "xs", Value.arrRef 2), (2, "0", Value.num 0),
      (3, "0", Value.num 7)],
    gdata := [("gArr", ⟨Value.undefV, true, 100, ⟨[]⟩, 0⟩)], stack := [] }

/-- `engE0` after the first read of `gArr` (cached 0, registry `[(2, "")]`). -/
def engE1 : Engine :=
  { heap := [(1, "xs", Value.arrRef 2), (2, "0", Value.num 0),
      (3, "0", Value.num 7)],
    gdata := [("gArr", ⟨Value.num 0, false, 100, ⟨[⟨2, ""⟩]⟩, 1⟩)], stack := [] }

/-- `engE1` after the write `state.xs = [7]` (array node 3 over array node 2):
the splice wrapper's `trigger(tp, '')` invalidates `gArr` and node 2's
elements are replaced in place by node 3's. -/
def engE2 : Engine :=
  { heap := [(1, "xs", Value.arrRef 2), (3, "0", Value.num 7),
      (2, "0", Value.num 7)],
    gdata := [("gArr", ⟨Value.num 0, true, 100, ⟨[⟨2, ""⟩]⟩, 1⟩)], stack := [] }

/-- `engE2` after re-reading `gArr`: the body ran again and cached 7. -/
def engE3 : Engine :=
  { heap := [(1, "xs", Value.arrRef 2), (3, "0", Value.num 7),
      (2, "0", Value.num 7)],
    gdata := [("gArr", ⟨Value.num 7, false, 100, ⟨[⟨2, ""⟩]⟩, 2⟩)], stack := [] }

/-!
Dependency-registry lemmas.
-/

theorem hasPair_iff (d : DependencyRegistry) (n : NodeId) (k : Key) :
    d.hasPair n k = true ↔ DepEntry.mk n k ∈ d.entries := by
  unfold DependencyRegistry.hasPair
  rw [List.any_eq_true]
  constructor
  · rintro ⟨e, he, hd⟩
    obtain ⟨h1, h2⟩ := of_decide_eq_true hd
    cases e
    simp_all
  · intro h
    exact ⟨_, h, by simp⟩

theorem add_hasPair_self (d : DependencyRegistry) (n : NodeId) (k : Key) :
    (d.add n k).hasPair n k = true := by
  unfold DependencyRegistry.add
  by_cases h : DepEntry.mk n k ∈ d.entries
  · rw [if_pos h, hasPair_iff]; exact h
  · rw [if_neg h, hasPair_iff]; exact List.mem_cons_self _ _

theorem add_hasPair_mono (d : DependencyRegistry) (n k n' k')
    (h : d.hasPair n k = true) : (d.add n' k').hasPair n k = true := by
  unfold DependencyRegistry.add
  by_cases hm : DepEntry.mk n' k' ∈ d.entries
  · rwa [if_pos hm]
  · rw [if_neg hm, hasPair_iff]
    exact List.mem_cons_of_mem _ ((hasPair_iff d n k).mp h)

theorem hasNode_of_hasPair (d : DependencyRegistry) (n : NodeId) (k : Key)
    (h : d.hasPair n k = true) : d.hasNode n = true := by
  rw [hasPair_iff] at h
  unfold DependencyRegistry.hasNode
  rw [List.any_eq_true]
  exact ⟨_, h, by simp⟩

theorem hasPair_false_of_hasNode_false (d : DependencyRegistry) (n : NodeId)
    (k : Key) (h : d.hasNode n = false) : d.hasPair n k = false := by
  cases hp : d.hasPair n k
  · rfl
  · rw [hasNode_of_hasPair d n k hp] at h; cases h

/-!
Association-table lemmas for `lookupG` / `updateG` / `findByNode`.
-/

theorem lookupG_mem (gd : GData) (n : String) (a : GetterData)
    (h : lookupG gd n = some a) : (n, a) ∈ gd := by
  induction gd with
  | nil => cases h
  | cons p rest ih =>
    obtain ⟨n', d⟩ := p
    by_cases he : n' = n
    · subst he
      rw [lookupG, if_pos rfl] at h
      cases h
      exact List.mem_cons_self _ _
    · rw [lookupG, if_neg he] at h
      exact List.mem_cons_of_mem _ (ih h)

theorem lookupG_isSome_of_mem_keys (gd : GData) (n : String)
    (h : n ∈ gd.map Prod.fst) : ∃ a, lookupG gd n = some a := by
  induction gd with
  | nil => simp at h
  | cons p rest ih =>
    obtain ⟨n', d⟩ := p
    by_cases he : n' = n
    · subst he
      exact ⟨d, by rw [lookupG, if_pos rfl]⟩
    · rw [List.map_cons, List.mem_cons] at h
      rcases h with h | h
      · exact absurd h.symm he
      · obtain ⟨a, ha⟩ := ih h
        exact ⟨a, by rw [lookupG, if_neg he]; exact ha⟩

theorem mem_keys_of_lookupG (gd : GData) (n : String) (a : GetterData)
    (h : lookupG gd n = some a) : n ∈ gd.map Prod.fst := by
  have := lookupG_mem gd n a h
  exact List.mem_map.mpr ⟨(n, a), this, rfl⟩

theorem lookupG_updateG_self (gd : GData) (n : String) (f : GetterData → GetterData) :
    lookupG (updateG gd n f) n = (lookupG gd n).map f := by
  induction gd with
  | nil => rfl
  | cons p rest ih =>
    obtain ⟨n', d⟩ := p
    by_cases he : n' = n
    · subst he
      rw [updateG, if_pos rfl, lookupG, if_pos rfl, lookupG, if_pos rfl, Option.map_some']
    · rw [updateG, if_neg he, lookupG, if_neg he, lookupG, if_neg he, ih]

theorem lookupG_updateG_ne (gd : GData) (n m : String) (f : GetterData → GetterData)
    (h : m ≠ n) : lookupG (updateG gd n f) m = lookupG gd m := by
  induction gd with
  | nil => rfl
  | cons p rest ih =>
    obtain ⟨n', d⟩ := p
    by_cases he : n' = n
    · subst he
      rw [updateG, if_pos rfl, lookupG, if_neg (fun hc => h hc.symm),
        lookupG, if_neg (fun hc => h hc.symm), ih]
    · by_cases hm : n' = m
      · subst hm
        rw [updateG, if_neg he, lookupG, if_pos rfl, lookupG, if_pos rfl]
      · rw [updateG, if_neg he, lookupG, if_neg hm, lookupG, if_neg hm, ih]

theorem keys_updateG (gd : GData) (n : String) (f : GetterData → GetterData) :
    (updateG gd n f).map Prod.fst = gd.map Prod.fst := by
  induction gd with
  | nil => rfl
  | cons p rest ih =>
    obtain ⟨n', d⟩ := p
    by_cases he : n' = n
    · rw [updateG, if_pos he, List.map_cons, List.map_cons, ih]
    · rw [updateG, if_neg he, List.map_cons, List.map_cons, ih]

theorem keyNode_updateG (gd : GData) (n : String) (f : GetterData → GetterData)
    (hf : ∀ d, (f d).nodeId = d.nodeId) :
    keyNode (updateG gd n f) = keyNode gd := by
  induction gd with
  | nil => rfl
  | cons p rest ih =>
    obtain ⟨n', d⟩ := p
    by_cases he : n' = n
    · rw [updateG, if_pos he]
      unfold keyNode at ih ⊢
      rw [List.map_cons, List.map_cons, ih]
      simp [hf]
    · rw [updateG, if_neg he]
      unfold keyNode at ih ⊢
      rw [List.map_cons, List.map_cons, ih]

theorem mem_updateG (gd : GData) (n : String) (f : GetterData → GetterData)
    (q : String × GetterData) (h : q ∈ updateG gd n f) :
    ∃ q₀ ∈ gd, q.1 = q₀.1 ∧ (q.2 = q₀.2 ∨ q.2 = f q₀.2) := by
  induction gd with
  | nil => cases h
  | cons p rest ih =>
    obtain ⟨n', d⟩ := p
    by_cases he : n' = n
    · rw [updateG, if_pos he] at h
      rcases List.mem_cons.mp h with h | h
      · exact ⟨(n', d), List.mem_cons_self _ _, by rw [h], by rw [h]; right; rfl⟩
      · obtain ⟨q₀, hq₀, h1, h2⟩ := ih h
        exact ⟨q₀, List.mem_cons_of_mem _ hq₀, h1, h2⟩
    · rw [updateG, if_neg he] at h
      rcases List.mem_cons.mp h with h | h
      · exact ⟨(n', d), List.mem_cons_self _ _, by rw [h], by rw [h]; left; rfl⟩
      · obtain ⟨q₀, hq₀, h1, h2⟩ := ih h
        exact ⟨q₀, List.mem_cons_of_mem _ hq₀, h1, h2⟩

/-!
Pointwise-relation transport lemmas.
-/

theorem lookupG_forall₂ {R : (String × GetterData) → (String × GetterData) → Prop}
    (hfst : ∀ a b, R a b → b.1 = a.1) {gd gd' : GData}
    (h : List.Forall₂ R gd gd') (n : String) (a : GetterData)
    (ha : lookupG gd n = some a) : ∃ b, lookupG gd' n = some b ∧ R (n, a) (n, b) := by
  induction h with
  | nil => cases ha
  | cons hpq hrest ih =>
    rename_i p q l l'
    obtain ⟨n₁, d₁⟩ := p
    obtain ⟨n₂, d₂⟩ := q
    have hn : n₂ = n₁ := hfst _ _ hpq
    subst hn
    by_cases he : n₂ = n
    · subst he
      rw [lookupG, if_pos rfl] at ha
      cases ha
      exact ⟨d₂, by rw [lookupG, if_pos rfl], hpq⟩
    · rw [lookupG, if_neg he] at ha
      obtain ⟨b, hb, hr⟩ := ih ha
      exact ⟨b, by rw [lookupG, if_neg he]; exact hb, hr⟩

theorem mem_forall₂ {R : (String × GetterData) → (String × GetterData) → Prop}
    {gd gd' : GData} (h : List.Forall₂ R gd gd') :
    ∀ b ∈ gd', ∃ a ∈ gd, R a b := by
  induction h with
  | nil => intro b hb; cases hb
  | cons hpq hrest ih =>
    intro b hb
    rcases List.mem_cons.mp hb with hb | hb
    · subst hb; exact ⟨_, List.mem_cons_self _ _, hpq⟩
    · obtain ⟨a, ha, hr⟩ := ih b hb
      exact ⟨a, List.mem_cons_of_mem _ ha, hr⟩

theorem entryRel_refl (p : String × GetterData) : EntryRel p p :=
  ⟨rfl, rfl, rfl, rfl, rfl, fun h => h⟩

theorem entryRel_trans {a b c : String × GetterData}
    (h1 : EntryRel a b) (h2 : EntryRel b c) : EntryRel a c := by
  obtain ⟨e1, e2, e3, e4, e5, e6⟩ := h1
  obtain ⟨f1, f2, f3, f4, f5, f6⟩ := h2
  exact ⟨f1.trans e1, f2.trans e2, f3.trans e3, f4.trans e4, f5.trans e5,
    fun h => f6 (e6 h)⟩

theorem trigRel_refl (gd : GData) : TrigRel gd gd :=
  List.forall₂_same.mpr (fun p _ => entryRel_refl p)

theorem trigRel_trans {gd₁ gd₂ gd₃ : GData}
    (h1 : TrigRel gd₁ gd₂) (h2 : TrigRel gd₂ gd₃) : TrigRel gd₁ gd₃ := by
  induction h1 generalizing gd₃ with
  | nil => cases h2; exact List.Forall₂.nil
  | cons hpq hrest ih =>
    cases h2 with
    | cons hqc h2rest => exact List.Forall₂.cons (entryRel_trans hpq hqc) (ih h2rest)

theorem trigRel_updateG_flag (gd : GData) (n : String) :
    TrigRel gd (updateG gd n (fun g => { g with invalidCache := true })) := by
  induction gd with
  | nil => exact List.Forall₂.nil
  | cons p rest ih =>
    obtain ⟨n', d⟩ := p
    by_cases he : n' = n
    · rw [updateG, if_pos he]
      exact List.Forall₂.cons ⟨rfl, rfl, rfl, rfl, rfl, fun _ => rfl⟩ ih
    · rw [updateG, if_neg he]
      exact List.Forall₂.cons (entryRel_refl _) ih

theorem trigRel_lookup {gd gd' : GData} (h : TrigRel gd gd') (n : String)
    (a : GetterData) (ha : lookupG gd n = some a) :
    ∃ b, lookupG gd' n = some b ∧ b.nodeId = a.nodeId ∧ b.depreg = a.depreg ∧
      b.cache = a.cache ∧ b.evalCount = a.evalCount ∧
      (a.invalidCache = true → b.invalidCache = true) := by
  obtain ⟨b, hb, hr⟩ := lookupG_forall₂ (fun a b hr => hr.1) h n a ha
  exact ⟨b, hb, hr.2.1, hr.2.2.1, hr.2.2.2.1, hr.2.2.2.2.1, hr.2.2.2.2.2⟩

theorem trigRel_lookup_flag {gd gd' : GData} (h : TrigRel gd gd') (n : String)
    (a : GetterData) (ha : lookupG gd n = some a) (hf : a.invalidCache = true) :
    ∃ b, lookupG gd' n = some b ∧ b.invalidCache = true := by
  obtain ⟨b, hb, _, _, _, _, hmono⟩ := trigRel_lookup h n a ha
  exact ⟨b, hb, hmono hf⟩

theorem trigRel_keyNode {gd gd' : GData} (h : TrigRel gd gd') :
    keyNode gd' = keyNode gd := by
  induction h with
  | nil => rfl
  | cons hpq hrest ih =>
    unfold keyNode at ih ⊢
    rw [List.map_cons, List.map_cons, ih]
    exact congrArg (· :: _) (by rw [Prod.mk.injEq]; exact ⟨hpq.1, hpq.2.1⟩)

theorem trackEntryRel_refl (p : String × GetterData) : TrackEntryRel p p :=
  ⟨rfl, rfl, rfl, rfl, rfl⟩

theorem trackEntryRel_trans {a b c : String × GetterData}
    (h1 : TrackEntryRel a b) (h2 : TrackEntryRel b c) : TrackEntryRel a c := by
  obtain ⟨e1, e2, e3, e4, e5⟩ := h1
  obtain ⟨f1, f2, f3, f4, f5⟩ := h2
  exact ⟨f1.trans e1, f2.trans e2, f3.trans e3, f4.trans e4, f5.trans e5⟩

theorem trackRel_refl (gd : GData) : TrackRel gd gd :=
  List.forall₂_same.mpr (fun p _ => trackEntryRel_refl p)

theorem trackRel_trans {gd₁ gd₂ gd₃ : GData}
    (h1 : TrackRel gd₁ gd₂) (h2 : TrackRel gd₂ gd₃) : TrackRel gd₁ gd₃ := by
  induction h1 generalizing gd₃ with
  | nil => cases h2; exact List.Forall₂.nil
  | cons hpq hrest ih =>
    cases h2 with
    | cons hqc h2rest => exact List.Forall₂.cons (trackEntryRel_trans hpq hqc) (ih h2rest)

theorem trackRel_updateG_add (gd : GData) (h : String) (n : NodeId) (k : Key) :
    TrackRel gd (updateG gd h (fun g => { g with depreg := g.depreg.add n k })) := by
  induction gd with
  | nil => exact List.Forall₂.nil
  | cons p rest ih =>
    obtain ⟨n', d⟩ := p
    by_cases he : n' = h
    · rw [updateG, if_pos he]
      exact List.Forall₂.cons ⟨rfl, rfl, rfl, rfl, rfl⟩ ih
    · rw [updateG, if_neg he]
      exact List.Forall₂.cons (trackEntryRel_refl _) ih

theorem trackRel_foldl (stack : List String) (gd : GData) (n : NodeId) (k : Key) :
    TrackRel gd (stack.foldl
      (fun gd h => updateG gd h (fun g => { g with depreg := g.depreg.add n k })) gd) := by
  suffices h : ∀ gd₀, TrackRel gd₀ (stack.foldl
      (fun gd h => updateG gd h (fun g => { g with depreg := g.depreg.add n k })) gd₀) from
    h gd
  induction stack with
  | nil => intro gd₀; exact trackRel_refl gd₀
  | cons s rest ih =>
    intro gd₀
    rw [List.foldl_cons]
    exact trackRel_trans (trackRel_updateG_add gd₀ s n k) (ih _)

theorem track_gdata_rel (eng : Engine) (n : NodeId) (k : Key) :
    TrackRel eng.gdata (track eng n k).gdata := by
  unfold track
  by_cases h : readRaw eng n k = Value.fnVal
  · rw [if_pos h]; exact trackRel_refl _
  · rw [if_neg h]; exact trackRel_foldl eng.stack eng.gdata n k

theorem track_heap (eng : Engine) (n : NodeId) (k : Key) :
    (track eng n k).heap = eng.heap := by
  unfold track
  by_cases h : readRaw eng n k = Value.fnVal
  · rw [if_pos h]
  · rw [if_neg h]

theorem track_stack (eng : Engine) (n : NodeId) (k : Key) :
    (track eng n k).stack = eng.stack := by
  unfold track
  by_cases h : readRaw eng n k = Value.fnVal
  · rw [if_pos h]
  · rw [if_neg h]

theorem trackRel_lookup {gd gd' : GData} (h : TrackRel gd gd') (n : String)
    (a : GetterData) (ha : lookupG gd n = some a) :
    ∃ b, lookupG gd' n = some b ∧ b.nodeId = a.nodeId ∧ b.cache = a.cache ∧
      b.invalidCache = a.invalidCache ∧ b.evalCount = a.evalCount := by
  obtain ⟨b, hb, hr⟩ := lookupG_forall₂ (fun a b hr => hr.1) h n a ha
  exact ⟨b, hb, hr.2.1, hr.2.2.1, hr.2.2.2.1, hr.2.2.2.2⟩

theorem trackRel_keyNode {gd gd' : GData} (h : TrackRel gd gd') :
    keyNode gd' = keyNode gd := by
  induction h with
  | nil => rfl
  | cons hpq hrest ih =>
    unfold keyNode at ih ⊢
    rw [List.map_cons, List.map_cons, ih]
    exact congrArg (· :: _) (by rw [Prod.mk.injEq]; exact ⟨hpq.1, hpq.2.1⟩)

theorem keys_of_keyNode {gd gd' : GData} (h : keyNode gd' = keyNode gd) :
    gd'.map Prod.fst = gd.map Prod.fst := by
  have h1 : (keyNode gd').map Prod.fst = (keyNode gd).map Prod.fst := by rw [h]
  unfold keyNode at h1
  rwa [List.map_map, List.map_map] at h1

/-!
Lemmas about `triggerGoP` / `triggerFuel`.
-/

theorem matchCond_depreg {d e : GetterData} (h : d.depreg = e.depreg)
    (t : NodeId) (p : Option Key) : matchCond d t p = matchCond e t p := by
  unfold matchCond
  cases p <;> rw [h]

theorem recurGood_none : RecurGood (fun _ _ _ => none) := by
  refine ⟨?_, ?_, ?_, ?_⟩
  · intro gd t p gd' h; cases h
  · intro gd t p gd' name a h; cases h
  · intro gd t p gd' h; cases h
  · intro gd t p gd' h; cases h

theorem goP_rel (recur : GData → NodeId → Option Key → Option GData)
    (hg : RecurGood recur) (names : List String) :
    ∀ gd t p gd', triggerGoP recur names gd t p = some gd' → TrigRel gd gd' := by
  induction names with
  | nil =>
    intro gd t p gd' h
    rw [triggerGoP] at h
    cases h
    exact trigRel_refl _
  | cons name rest ih =>
    intro gd t p gd' h
    rw [triggerGoP] at h
    split at h
    · cases h
    · rename_i gns hl
      split at h
      · split at h
        · cases h
        · rename_i hm gd₂ hr
          exact trigRel_trans (hg.rel _ _ _ _ hr)
            (trigRel_trans (trigRel_updateG_flag gd₂ name) (ih _ _ _ _ h))
      · exact ih _ _ _ _ h

theorem goP_flags (recur : GData → NodeId → Option Key → Option GData)
    (hg : RecurGood recur) (names : List String) :
    ∀ gd t p gd' name a, triggerGoP recur names gd t p = some gd' →
      name ∈ names → lookupG gd name = some a → matchCond a t p = true →
      ∃ b, lookupG gd' name = some b ∧ b.invalidCache = true := by
  induction names with
  | nil => intro gd t p gd' name a _ hmem; cases hmem
  | cons n₀ rest ih =>
    intro gd t p gd' name a h hmem ha hmatch
    rw [triggerGoP] at h
    split at h
    · cases h
    · rename_i g₀ hl
      split at h
      · split at h
        · cases h
        · rename_i hm gd₂ hr
          by_cases hne : name = n₀
          · subst hne
            have ha' : a = g₀ := by rw [ha] at hl; cases hl; rfl
            subst ha'
            obtain ⟨b₂, hb₂, _, hd₂, _, _, _⟩ :=
              trigRel_lookup (hg.rel _ _ _ _ hr) name a ha
            have h3 : lookupG (updateG gd₂ name
                (fun g => { g with invalidCache := true })) name =
                some { b₂ with invalidCache := true } := by
              rw [lookupG_updateG_self, hb₂, Option.map_some']
            exact trigRel_lookup_flag (goP_rel recur hg rest _ _ _ _ h) name _ h3 rfl
          · have hmem' : name ∈ rest := by
              rcases List.mem_cons.mp hmem with hc | hc
              · exact absurd hc hne
              · exact hc
            have hrel : TrigRel gd (updateG gd₂ n₀
                (fun g => { g with invalidCache := true })) :=
              trigRel_trans (hg.rel _ _ _ _ hr) (trigRel_updateG_flag gd₂ n₀)
            obtain ⟨a₃, ha₃, _, hd₃, _, _, _⟩ := trigRel_lookup hrel name a ha
            have hmatch₃ : matchCond a₃ t p = true := by
              rw [matchCond_depreg hd₃]; exact hmatch
            exact ih _ _ _ _ _ _ h hmem' ha₃ hmatch₃
      · rename_i hm
        by_cases hne : name = n₀
        · subst hne
          rw [ha] at hl; cases hl
          exact absurd hmatch hm
        · have hmem' : name ∈ rest := by
            rcases List.mem_cons.mp hmem with hc | hc
            · exact absurd hc hne
            · exact hc
          exact ih _ _ _ _ _ _ h hmem' ha hmatch

theorem goP_gun (recur : GData → NodeId → Option Key → Option GData)
    (hg : RecurGood recur) (names : List String) :
    ∀ gd t p gd' g gns, triggerGoP recur names gd t p = some gd' →
      lookupG gd g = some gns → matchCond gns t p = false →
      (∀ q ∈ gd, gns.depreg.hasPair q.2.nodeId cacheKey = false) →
      lookupG gd' g = some gns := by
  induction names with
  | nil =>
    intro gd t p gd' g gns h hg' _ _
    rw [triggerGoP] at h
    cases h
    exact hg'
  | cons n₀ rest ih =>
    intro gd t p gd' g gns h hlg hmc hq
    rw [triggerGoP] at h
    split at h
    · cases h
    · rename_i g₀ hl
      split at h
      · rename_i hmT
        split at h
        · cases h
        · rename_i gd₂ hr
          have hne : n₀ ≠ g := by
            intro hc
            subst hc
            rw [hlg] at hl
            cases hl
            rw [hmc] at hmT
            cases hmT
          have hq₀ : gns.depreg.hasPair g₀.nodeId cacheKey = false :=
            hq (n₀, g₀) (lookupG_mem gd n₀ g₀ hl)
          have hmc₂ : matchCond gns g₀.nodeId (some cacheKey) = false := by
            unfold matchCond
            exact hq₀
          have hlg₂ : lookupG gd₂ g = some gns :=
            hg.gun _ _ _ _ hr g gns hlg hmc₂ hq
          have hq₂ : ∀ q ∈ gd₂, gns.depreg.hasPair q.2.nodeId cacheKey = false := by
            intro q hqm
            obtain ⟨q₁, hq₁, hrel⟩ := mem_forall₂ (hg.rel _ _ _ _ hr) q hqm
            rw [hrel.2.1]
            exact hq q₁ hq₁
          have hlg₃ : lookupG (updateG gd₂ n₀
              (fun g => { g with invalidCache := true })) g = some gns := by
            rw [lookupG_updateG_ne _ _ _ _ (fun hc => hne hc.symm)]
            exact hlg₂
          have hq₃ : ∀ q ∈ updateG gd₂ n₀ (fun g => { g with invalidCache := true }),
              gns.depreg.hasPair q.2.nodeId cacheKey = false := by
            intro q hqm
            obtain ⟨q₀, hq₀m, hfst, hsnd⟩ := mem_updateG _ _ _ q hqm
            rcases hsnd with hs | hs
            · rw [hs]; exact hq₂ q₀ hq₀m
            · rw [hs]; exact hq₂ q₀ hq₀m
          exact ih _ _ _ _ _ _ h hlg₃ hmc hq₃
      · exact ih _ _ _ _ _ _ h hlg hmc hq

theorem goP_nf (recur : GData → NodeId → Option Key → Option GData)
    (hg : RecurGood recur) (names : List String) :
    ∀ gd t p gd', triggerGoP recur names gd t p = some gd' →
      ∀ x xa xb, lookupG gd x = some xa → xa.invalidCache = false →
        lookupG gd' x = some xb → xb.invalidCache = true →
        ∀ y ya, lookupG gd y = some ya → ya.depreg.hasPair xa.nodeId cacheKey = true →
          ∃ yb, lookupG gd' y = some yb ∧ yb.invalidCache = true := by
  induction names with
  | nil =>
    intro gd t p gd' h x xa xb hxa hfa hxb hfb y ya hya hpair
    rw [triggerGoP] at h
    cases h
    rw [hxa] at hxb
    cases hxb
    rw [hfa] at hfb
    cases hfb
  | cons n₀ rest ih =>
    intro gd t p gd' h x xa xb hxa hfa hxb hfb y ya hya hpair
    rw [triggerGoP] at h
    split at h
    · cases h
    · rename_i g₀ hl
      split at h
      · split at h
        · cases h
        · rename_i hm gd₂ hr
          have hrel₂ : TrigRel gd gd₂ := hg.rel _ _ _ _ hr
          have hrel₃ : TrigRel gd₂ (updateG gd₂ n₀
              (fun g => { g with invalidCache := true })) :=
            trigRel_updateG_flag gd₂ n₀
          have hrelRest : TrigRel (updateG gd₂ n₀
              (fun g => { g with invalidCache := true })) gd' :=
            goP_rel recur hg rest _ _ _ _ h
          obtain ⟨xa₂, hxa₂, hnid₂, hdep₂, _, _, _⟩ := trigRel_lookup hrel₂ x xa hxa
          by_cases hflag₂ : xa₂.invalidCache = true
          · -- x was flagged inside the recursive trigger call
            obtain ⟨yb₂, hyb₂, hyf₂⟩ :=
              hg.nf _ _ _ _ hr x xa xa₂ hxa hfa hxa₂ hflag₂ y ya hya hpair
            exact trigRel_lookup_flag (trigRel_trans hrel₃ hrelRest) y yb₂ hyb₂ hyf₂
          · by_cases hxe : x = n₀
            · -- x is the getter processed at this step: its own match fired,
              -- so the recursive call was on x's cache slot and flagged y
              subst hxe
              have hxg : xa = g₀ := by rw [hxa] at hl; cases hl; rfl
              subst hxg
              have hymatch : matchCond ya xa.nodeId (some cacheKey) = true := by
                unfold matchCond
                exact hpair
              obtain ⟨yb₂, hyb₂, hyf₂⟩ :=
                hg.flags _ _ _ _ y ya hr hya hymatch
              exact trigRel_lookup_flag (trigRel_trans hrel₃ hrelRest) y yb₂ hyb₂ hyf₂
            · -- x was flagged later, during the remaining iteration
              have hxa₃ : lookupG (updateG gd₂ n₀
                  (fun g => { g with invalidCache := true })) x = some xa₂ := by
                rw [lookupG_updateG_ne _ _ _ _ hxe]
                exact hxa₂
              obtain ⟨ya₃, hya₃, _, hdep₃, _, _, _⟩ :=
                trigRel_lookup (trigRel_trans hrel₂ hrel₃) y ya hya
              have hpair₃ : ya₃.depreg.hasPair xa₂.nodeId cacheKey = true := by
                rw [hdep₃, hnid₂]
                exact hpair
              exact ih _ _ _ _ h x xa₂ xb hxa₃
                (by cases hcc : xa₂.invalidCache
                    · rfl
                    · exact absurd hcc hflag₂)
                hxb hfb y ya₃ hya₃ hpair₃
      · exact ih _ _ _ _ h x xa xb hxa hfa hxb hfb y ya hya hpair

theorem goP_nomatch (recur : GData → NodeId → Option Key → Option GData)
    (names : List String) :
    ∀ gd t p, (∀ name ∈ names, ∃ a, lookupG gd name = some a) →
      (∀ name ∈ names, ∀ a, lookupG gd name = some a → matchCond a t p = false) →
      triggerGoP recur names gd t p = some gd := by
  induction names with
  | nil => intro gd t p _ _; rw [triggerGoP]
  | cons n₀ rest ih =>
    intro gd t p hsome hnm
    obtain ⟨a, ha⟩ := hsome n₀ (List.mem_cons_self _ _)
    rw [triggerGoP]
    split
    · rename_i hnone
      rw [ha] at hnone
      cases hnone
    · rename_i a' ha'
      rw [ha] at ha'
      cases ha'
      rw [if_neg (by
        rw [hnm n₀ (List.mem_cons_self _ _) a ha]
        exact Bool.false_ne_true)]
      exact ih gd t p (fun name hm => hsome name (List.mem_cons_of_mem _ hm))
        (fun name hm => hnm name (List.mem_cons_of_mem _ hm))

theorem triggerFuel_good : ∀ fuel, RecurGood (triggerFuel fuel) := by
  intro fuel
  induction fuel with
  | zero =>
    refine ⟨?_, ?_, ?_, ?_⟩
    · intro gd t p gd' h
      rw [triggerFuel] at h
      exact goP_rel _ recurGood_none _ _ _ _ _ h
    · intro gd t p gd' name a h ha hm
      rw [triggerFuel] at h
      exact goP_flags _ recurGood_none _ _ _ _ _ name a h
        (mem_keys_of_lookupG gd name a ha) ha hm
    · intro gd t p gd' h
      rw [triggerFuel] at h
      exact goP_nf _ recurGood_none _ _ _ _ _ h
    · intro gd t p gd' h
      rw [triggerFuel] at h
      exact fun g gns hlg hmc hq => goP_gun _ recurGood_none _ _ _ _ _ g gns h hlg hmc hq
  | succ fuel ihf =>
    refine ⟨?_, ?_, ?_, ?_⟩
    · intro gd t p gd' h
      rw [triggerFuel] at h
      exact goP_rel _ ihf _ _ _ _ _ h
    · intro gd t p gd' name a h ha hm
      rw [triggerFuel] at h
      exact goP_flags _ ihf _ _ _ _ _ name a h
        (mem_keys_of_lookupG gd name a ha) ha hm
    · intro gd t p gd' h
      rw [triggerFuel] at h
      exact goP_nf _ ihf _ _ _ _ _ h
    · intro gd t p gd' h
      rw [triggerFuel] at h
      exact fun g gns hlg hmc hq => goP_gun _ ihf _ _ _ _ _ g gns h hlg hmc hq

theorem triggerFuel_nomatch (fuel : Nat) (gd : GData) (t : NodeId) (p : Option Key)
    (h : ∀ q ∈ gd, matchCond q.2 t p = false) :
    triggerFuel fuel gd t p = some gd := by
  have hsome : ∀ name ∈ gd.map Prod.fst, ∃ a, lookupG gd name = some a :=
    fun name hm => lookupG_isSome_of_mem_keys gd name hm
  have hnm : ∀ name ∈ gd.map Prod.fst, ∀ a, lookupG gd name = some a →
      matchCond a t p = false :=
    fun name _ a ha => h (name, a) (lookupG_mem gd name a ha)
  cases fuel with
  | zero => rw [triggerFuel]; exact goP_nomatch _ _ _ _ _ hsome hnm
  | succ fuel => rw [triggerFuel]; exact goP_nomatch _ _ _ _ _ hsome hnm

/-!
Shape and counter lemmas for `track`, `evalReadsP` and `runGetter`.
-/

theorem eshape_refl (e : Engine) : EShape e e := ⟨rfl, rfl, rfl⟩

theorem eshape_trans {a b c : Engine} (h1 : EShape a b) (h2 : EShape b c) :
    EShape a c :=
  ⟨h2.1.trans h1.1, h2.2.1.trans h1.2.1, h2.2.2.trans h1.2.2⟩

theorem countMono_refl (e : Engine) : CountMono e e :=
  fun _ a ha => ⟨a, ha, le_refl _⟩

theorem countMono_trans {a b c : Engine} (h1 : CountMono a b) (h2 : CountMono b c) :
    CountMono a c := by
  intro g x hx
  obtain ⟨y, hy, hxy⟩ := h1 g x hx
  obtain ⟨z, hz, hyz⟩ := h2 g y hy
  exact ⟨z, hz, hxy.trans hyz⟩

theorem countMono_of_gdata_eq {a b : Engine} (h : b.gdata = a.gdata) :
    CountMono a b := by
  intro g x hx
  rw [h]
  exact ⟨x, hx, le_refl _⟩

theorem track_eshape (eng : Engine) (n : NodeId) (k : Key) :
    EShape eng (track eng n k) :=
  ⟨trackRel_keyNode (track_gdata_rel eng n k), track_heap eng n k, track_stack eng n k⟩

theorem track_countMono (eng : Engine) (n : NodeId) (k : Key) :
    CountMono eng (track eng n k) := by
  intro g a ha
  obtain ⟨b, hb, _, _, _, hc⟩ := trackRel_lookup (track_gdata_rel eng n k) g a ha
  exact ⟨b, hb, le_of_eq hc.symm⟩

theorem countMono_updateG_gd (gd : GData) (name : String)
    (f : GetterData → GetterData) (hf : ∀ d, d.evalCount ≤ (f d).evalCount) :
    ∀ g a, lookupG gd g = some a →
      ∃ b, lookupG (updateG gd name f) g = some b ∧ a.evalCount ≤ b.evalCount := by
  intro g a ha
  by_cases he : g = name
  · subst he
    rw [lookupG_updateG_self, ha, Option.map_some']
    exact ⟨f a, rfl, hf a⟩
  · rw [lookupG_updateG_ne _ _ _ _ he]
    exact ⟨a, ha, le_refl _⟩

theorem evalReadsP_shape (recur : Engine → String → Option (Value × Engine))
    (hrec : ∀ e g v e', recur e g = some (v, e') → EShape e e' ∧ CountMono e e') :
    ∀ rs eng acc vs eng', evalReadsP recur eng rs acc = some (vs, eng') →
      EShape eng eng' ∧ CountMono eng eng' := by
  intro rs
  induction rs with
  | nil =>
    intro eng acc vs eng' h
    rw [evalReadsP] at h
    cases h
    exact ⟨eshape_refl _, countMono_refl _⟩
  | cons r rest ih =>
    intro eng acc vs eng' h
    cases r with
    | rstate n k =>
      rw [evalReadsP] at h
      obtain ⟨h1, h2⟩ := ih _ _ _ _ h
      exact ⟨eshape_trans (track_eshape eng n k) h1,
        countMono_trans (track_countMono eng n k) h2⟩
    | rgetter g =>
      rw [evalReadsP] at h
      split at h
      · cases h
      · rename_i v e₂ hr
        obtain ⟨h1, h2⟩ := ih _ _ _ _ h
        obtain ⟨h3, h4⟩ := hrec _ _ _ _ hr
        exact ⟨eshape_trans h3 h1, countMono_trans h4 h2⟩
    | rreduceSum n =>
      rw [evalReadsP] at h
      obtain ⟨h1, h2⟩ := ih _ _ _ _ h
      exact ⟨eshape_trans (track_eshape eng n "") h1,
        countMono_trans (track_countMono eng n "") h2⟩

theorem runGetter_shape (bodies : String → Option GBody) :
    ∀ fuel eng name v eng', runGetter bodies fuel eng name = some (v, eng') →
      EShape eng eng' ∧ CountMono eng eng' := by
  intro fuel
  induction fuel with
  | zero => intro eng name v eng' h; cases h
  | succ fuel ih =>
    intro eng name v eng' h
    simp only [runGetter] at h
    split at h
    · rename_i gns body hlk hbd
      split at h
      · cases h
        exact ⟨track_eshape eng gns.nodeId cacheKey,
          track_countMono eng gns.nodeId cacheKey⟩
      · split at h
        · cases h
        · rename_i vals eng4 hev
          cases h
          obtain ⟨⟨hkey4, hheap4, hstack4⟩, hcnt4⟩ :=
            evalReadsP_shape (runGetter bodies fuel)
              (fun e g v e' hr => ih e g v e' hr) _ _ _ _ _ hev
          dsimp only at hkey4 hheap4 hstack4
          constructor
          · refine ⟨?_, ?_, ?_⟩
            · rw [keyNode_updateG eng4.gdata name
                  (fun g => { g with cache := body.compute vals, invalidCache := false, evalCount := g.evalCount + 1 })
                  (fun d => rfl), hkey4,
                keyNode_updateG (track eng gns.nodeId cacheKey).gdata name
                  (fun g => { g with depreg := DependencyRegistry.reset })
                  (fun d => rfl)]
              exact trackRel_keyNode (track_gdata_rel eng gns.nodeId cacheKey)
            · show eng4.heap = eng.heap
              rw [hheap4]
              exact track_heap eng gns.nodeId cacheKey
            · show List.drop 1 eng4.stack = eng.stack
              rw [hstack4]
              simp only [List.drop_one, List.tail_cons]
              exact track_stack eng gns.nodeId cacheKey
          · intro g a ha
            obtain ⟨a1, ha1, _, _, _, hc1⟩ :=
              trackRel_lookup (track_gdata_rel eng gns.nodeId cacheKey) g a ha
            obtain ⟨a2, ha2, hc2⟩ :=
              countMono_updateG_gd (track eng gns.nodeId cacheKey).gdata name
                (fun g => { g with depreg := DependencyRegistry.reset })
                (fun d => le_refl _) g a1 ha1
            obtain ⟨a4, ha4, hc4⟩ := hcnt4 g a2 ha2
            obtain ⟨a5, ha5, hc5⟩ :=
              countMono_updateG_gd eng4.gdata name
                (fun g => { g with cache := body.compute vals, invalidCache := false, evalCount := g.evalCount + 1 })
                (fun d => Nat.le_succ _) g a4 ha4
            refine ⟨a5, ha5, ?_⟩
            calc a.evalCount = a1.evalCount := hc1.symm
              _ ≤ a2.evalCount := hc2
              _ ≤ a4.evalCount := hc4
              _ ≤ a5.evalCount := hc5
    · cases h

theorem runGetter_valid (bodies : String → Option GBody) (fuel : Nat) (eng : Engine)
    (name : String) (gns : GetterData) (body : GBody)
    (hl : lookupG eng.gdata name = some gns) (hb : bodies name = some body)
    (hv : gns.invalidCache = false) :
    runGetter bodies (fuel + 1) eng name =
      some (gns.cache, track eng gns.nodeId cacheKey) := by
  simp only [runGetter, hl, hb]
  rw [if_pos hv]

theorem runGetter_post (bodies : String → Option GBody) (fuel : Nat) (eng : Engine)
    (name : String) (v : Value) (eng' : Engine)
    (h : runGetter bodies fuel eng name = some (v, eng')) :
    ∃ d, lookupG eng'.gdata name = some d ∧ d.invalidCache = false ∧ d.cache = v := by
  cases fuel with
  | zero => cases h
  | succ fuel =>
    simp only [runGetter] at h
    split at h
    · rename_i gns body hlk hbd
      split at h
      · rename_i hv
        cases h
        obtain ⟨b, hb, _, hcache, hflag, _⟩ :=
          trackRel_lookup (track_gdata_rel eng gns.nodeId cacheKey) name gns hlk
        exact ⟨b, hb, by rw [hflag]; exact hv, hcache⟩
      · split at h
        · cases h
        · rename_i vals eng4 hev
          cases h
          obtain ⟨⟨hkey4, _, _⟩, _⟩ :=
            evalReadsP_shape (runGetter bodies fuel)
              (fun e g v e' hr => runGetter_shape bodies fuel e g v e' hr) _ _ _ _ _ hev
          dsimp only at hkey4
          have hmem : name ∈ eng4.gdata.map Prod.fst := by
            rw [keys_of_keyNode hkey4, keys_updateG,
              keys_of_keyNode (trackRel_keyNode (track_gdata_rel eng gns.nodeId cacheKey))]
            exact mem_keys_of_lookupG _ _ _ hlk
          obtain ⟨d4, hd4⟩ := lookupG_isSome_of_mem_keys _ _ hmem
          refine ⟨{ d4 with cache := body.compute vals, invalidCache := false, evalCount := d4.evalCount + 1 }, ?_, rfl, rfl⟩
          show lookupG (updateG eng4.gdata name
            (fun g => { g with cache := body.compute vals, invalidCache := false, evalCount := g.evalCount + 1 })) name = _
          rw [lookupG_updateG_self, hd4, Option.map_some']
    · cases h

theorem runGetter_invalid_bump (bodies : String → Option GBody) (fuel : Nat)
    (eng : Engine) (name : String) (gns : GetterData) (v : Value) (eng' : Engine)
    (hl : lookupG eng.gdata name = some gns) (hinv : gns.invalidCache = true)
    (h : runGetter bodies fuel eng name = some (v, eng')) :
    ∃ d, lookupG eng'.gdata name = some d ∧ gns.evalCount + 1 ≤ d.evalCount := by
  cases fuel with
  | zero => cases h
  | succ fuel =>
    simp only [runGetter] at h
    split at h
    · rename_i gns' body hlk hbd
      rw [hl] at hlk
      cases hlk
      split at h
      · rename_i hv
        rw [hinv] at hv
        cases hv
      · split at h
        · cases h
        · rename_i vals eng4 hev
          cases h
          obtain ⟨b1, hb1, _, _, _, hc1⟩ :=
            trackRel_lookup (track_gdata_rel eng gns.nodeId cacheKey) name gns hl
          have hb2 : lookupG (updateG (track eng gns.nodeId cacheKey).gdata name
              (fun g => { g with depreg := DependencyRegistry.reset })) name =
              some { b1 with depreg := DependencyRegistry.reset } := by
            rw [lookupG_updateG_self, hb1, Option.map_some']
          obtain ⟨_, hcnt4⟩ :=
            evalReadsP_shape (runGetter bodies fuel)
              (fun e g v e' hr => runGetter_shape bodies fuel e g v e' hr) _ _ _ _ _ hev
          obtain ⟨d4, hd4, hc4⟩ := hcnt4 name _ hb2
          refine ⟨{ d4 with cache := body.compute vals, invalidCache := false, evalCount := d4.evalCount + 1 }, ?_, ?_⟩
          · show lookupG (updateG eng4.gdata name
              (fun g => { g with cache := body.compute vals, invalidCache := false, evalCount := g.evalCount + 1 })) name = _
            rw [lookupG_updateG_self, hd4, Option.map_some']
          · have hle : gns.evalCount ≤ d4.evalCount := by
              calc gns.evalCount = b1.evalCount := hc1.symm
                _ ≤ d4.evalCount := hc4
            exact Nat.succ_le_succ hle
    · cases h

/-!
Lemmas about the `set` trap (`setState`) and write sequences.
-/

theorem setState_steps (fuel : Nat) (eng : Engine) (n : NodeId) (k : Key)
    (v : Value) (eng' : Engine) (h : setState fuel eng n k v = some eng') :
    eng'.stack = eng.stack ∧
    ((v = heapGet eng.heap n k ∧ eng' = eng) ∨
     (v ≠ heapGet eng.heap n k ∧ ∃ gd1 gd2,
       ((keyExists eng.heap n k = true ∧ gd1 = eng.gdata) ∨
        (keyExists eng.heap n k ≠ true ∧
          triggerFuel fuel eng.gdata n none = some gd1)) ∧
       triggerFuel fuel gd1 n (some k) = some gd2 ∧
       (eng'.gdata = gd2 ∨
        ∃ m tp gd3, v = Value.arrRef m ∧
          heapGet eng.heap n k = Value.arrRef tp ∧
          triggerFuel fuel gd2 tp (some "") = some gd3 ∧
          eng'.gdata = gd3))) := by
  simp only [setState] at h
  split at h
  · rename_i hv
    cases h
    exact ⟨rfl, Or.inl ⟨hv, rfl⟩⟩
  · rename_i hv
    split at h
    · cases h
    · rename_i gd1 heq1
      split at h
      · cases h
      · rename_i gd2 heq2
        have hs1 : (keyExists eng.heap n k = true ∧ gd1 = eng.gdata) ∨
            (keyExists eng.heap n k ≠ true ∧
              triggerFuel fuel eng.gdata n none = some gd1) := by
          by_cases hk : keyExists eng.heap n k = true
          · rw [if_pos hk] at heq1
            cases heq1
            exact Or.inl ⟨hk, rfl⟩
          · rw [if_neg hk] at heq1
            exact Or.inr ⟨hk, heq1⟩
        split at h
        · split at h
          · cases h
          · rename_i gd3 heq3
            cases h
            exact ⟨rfl, Or.inr ⟨hv, gd1, gd2, hs1, heq2,
              Or.inr ⟨_, _, _, rfl, by assumption, heq3, rfl⟩⟩⟩
        · cases h
          exact ⟨rfl, Or.inr ⟨hv, gd1, gd2, hs1, heq2, Or.inl rfl⟩⟩
        · cases h
          exact ⟨rfl, Or.inr ⟨hv, gd1, gd2, hs1, heq2, Or.inl rfl⟩⟩
        · cases h
          exact ⟨rfl, Or.inr ⟨hv, gd1, gd2, hs1, heq2, Or.inl rfl⟩⟩

theorem nfStep_refl (gd : GData) : NfStep gd gd := by
  refine ⟨trigRel_refl gd, ?_⟩
  intro x xa xb hxa hfa hxb hfb y ya hya hpair
  rw [hxa] at hxb
  cases hxb
  rw [hfa] at hfb
  cases hfb

theorem nfStep_trigger (fuel : Nat) (gd : GData) (t : NodeId) (p : Option Key)
    (gd' : GData) (h : triggerFuel fuel gd t p = some gd') : NfStep gd gd' :=
  ⟨(triggerFuel_good fuel).rel _ _ _ _ h, (triggerFuel_good fuel).nf _ _ _ _ h⟩

theorem nfStep_trans {a b c : GData} (h1 : NfStep a b) (h2 : NfStep b c) :
    NfStep a c := by
  refine ⟨trigRel_trans h1.1 h2.1, ?_⟩
  intro x xa xc hxa hfa hxc hfc y ya hya hpair
  obtain ⟨xb, hxb, hnid, _, _, _, _⟩ := trigRel_lookup h1.1 x xa hxa
  by_cases hfb : xb.invalidCache = true
  · obtain ⟨yb, hyb, hyf⟩ := h1.2 x xa xb hxa hfa hxb hfb y ya hya hpair
    exact trigRel_lookup_flag h2.1 y yb hyb hyf
  · have hfb' : xb.invalidCache = false := by
      cases hc : xb.invalidCache
      · rfl
      · exact absurd hc hfb
    obtain ⟨yb, hyb, _, hdepy, _, _, _⟩ := trigRel_lookup h1.1 y ya hya
    have hpair' : yb.depreg.hasPair xb.nodeId cacheKey = true := by
      rw [hdepy, hnid]
      exact hpair
    exact h2.2 x xb xc hxb hfb' hxc hfc y yb hyb hpair'

theorem setState_nfStep (fuel : Nat) (eng : Engine) (n : NodeId) (k : Key)
    (v : Value) (eng' : Engine) (h : setState fuel eng n k v = some eng') :
    NfStep eng.gdata eng'.gdata := by
  obtain ⟨-, hc⟩ := setState_steps fuel eng n k v eng' h
  rcases hc with ⟨-, rfl⟩ | ⟨-, gd1, gd2, hs1, heq2, hlast⟩
  · exact nfStep_refl _
  · have s1 : NfStep eng.gdata gd1 := by
      rcases hs1 with ⟨-, h'⟩ | ⟨-, heq1⟩
      · rw [h']
        exact nfStep_refl _
      · exact nfStep_trigger fuel _ _ _ _ heq1
    have s2 : NfStep eng.gdata gd2 :=
      nfStep_trans s1 (nfStep_trigger fuel _ _ _ _ heq2)
    rcases hlast with hgd | ⟨m, tp, gd3, -, -, heq3, hgd⟩
    · rw [hgd]
      exact s2
    · rw [hgd]
      exact nfStep_trans s2 (nfStep_trigger fuel _ _ _ _ heq3)

theorem setState_untouched (fuel : Nat) (eng : Engine) (n : NodeId) (k : Key)
    (v : Value) (eng' : Engine) (h : setState fuel eng n k v = some eng')
    (h1 : ∀ q ∈ eng.gdata, q.2.depreg.hasNode n = false)
    (h2 : (∀ m, v ≠ Value.arrRef m) ∨
      ∀ q ∈ eng.gdata, ∀ tp, q.2.depreg.hasPair tp "" = false) :
    eng'.gdata = eng.gdata ∧ eng'.stack = eng.stack := by
  obtain ⟨hstk, hc⟩ := setState_steps fuel eng n k v eng' h
  refine ⟨?_, hstk⟩
  rcases hc with ⟨-, rfl⟩ | ⟨-, gd1, gd2, hs1, heq2, hlast⟩
  · rfl
  · have hgd1 : gd1 = eng.gdata := by
      rcases hs1 with ⟨-, h'⟩ | ⟨-, heq1⟩
      · exact h'
      · rw [triggerFuel_nomatch fuel eng.gdata n none
          (fun q hq => h1 q hq)] at heq1
        cases heq1
        rfl
    have hgd2 : gd2 = eng.gdata := by
      rw [hgd1] at heq2
      rw [triggerFuel_nomatch fuel eng.gdata n (some k) (fun q hq =>
        hasPair_false_of_hasNode_false q.2.depreg n k (h1 q hq))] at heq2
      cases heq2
      rfl
    rcases hlast with hgd | ⟨m, tp, gd3, hvm, htp, heq3, hgd⟩
    · rw [hgd, hgd2]
    · rcases h2 with h2 | h2
      · exact absurd hvm (h2 m)
      · rw [hgd2] at heq3
        rw [triggerFuel_nomatch fuel eng.gdata tp (some "")
          (fun q hq => h2 q hq tp)] at heq3
        cases heq3
        exact hgd

theorem applyWrites_untouched (fuel : Nat) :
    ∀ ws (eng eng' : Engine), applyWrites fuel eng ws = some eng' →
      (∀ w ∈ ws, (∀ q ∈ eng.gdata, q.2.depreg.hasNode w.1 = false) ∧
        ((∀ m, w.2.2 ≠ Value.arrRef m) ∨
          ∀ q ∈ eng.gdata, ∀ tp, q.2.depreg.hasPair tp "" = false)) →
      eng'.gdata = eng.gdata ∧ eng'.stack = eng.stack := by
  intro ws
  induction ws with
  | nil =>
    intro eng eng' h _
    rw [applyWrites] at h
    cases h
    exact ⟨rfl, rfl⟩
  | cons w ws ih =>
    intro eng eng' h hc
    rw [applyWrites] at h
    split at h
    · cases h
    · rename_i e₂ hset
      obtain ⟨hcn, hca⟩ := hc w (List.mem_cons_self _ _)
      obtain ⟨hg₂, hs₂⟩ :=
        setState_untouched fuel eng w.1 w.2.1 w.2.2 e₂ hset hcn hca
      obtain ⟨hg', hs'⟩ := ih e₂ eng' h (by
        intro w' hw'
        obtain ⟨hcn', hca'⟩ := hc w' (List.mem_cons_of_mem _ hw')
        refine ⟨by rw [hg₂]; exact hcn', ?_⟩
        rcases hca' with hx | hx
        · exact Or.inl hx
        · exact Or.inr (by rw [hg₂]; exact hx))
      exact ⟨hg'.trans hg₂, hs'.trans hs₂⟩

theorem setState_flags (fuel : Nat) (eng : Engine) (n : NodeId) (k : Key)
    (v : Value) (eng' : Engine) (g : String) (gns : GetterData)
    (h : setState fuel eng n k v = some eng')
    (hl : lookupG eng.gdata g = some gns)
    (hp : gns.depreg.hasPair n k = true)
    (hne : v ≠ heapGet eng.heap n k) :
    ∃ d, lookupG eng'.gdata g = some d ∧ d.invalidCache = true ∧
      d.depreg = gns.depreg ∧ d.cache = gns.cache ∧
      d.evalCount = gns.evalCount ∧ d.nodeId = gns.nodeId := by
  obtain ⟨-, hc⟩ := setState_steps fuel eng n k v eng' h
  rcases hc with ⟨hv, -⟩ | ⟨-, gd1, gd2, hs1, heq2, hlast⟩
  · exact absurd hv hne
  · have hrel1 : TrigRel eng.gdata gd1 := by
      rcases hs1 with ⟨-, h'⟩ | ⟨-, heq1⟩
      · rw [h']
        exact trigRel_refl _
      · exact (triggerFuel_good fuel).rel _ _ _ _ heq1
    obtain ⟨gns1, hgns1, hnid1, hdep1, hcache1, hcnt1, -⟩ :=
      trigRel_lookup hrel1 g gns hl
    have hm1 : matchCond gns1 n (some k) = true := by
      unfold matchCond
      rw [hdep1]
      exact hp
    obtain ⟨b, hb, hbf⟩ :=
      (triggerFuel_good fuel).flags _ _ _ _ g gns1 heq2 hgns1 hm1
    obtain ⟨b', hb', hnid2, hdep2, hcache2, hcnt2, -⟩ :=
      trigRel_lookup ((triggerFuel_good fuel).rel _ _ _ _ heq2) g gns1 hgns1
    rw [hb] at hb'
    cases hb'
    rcases hlast with hgd | ⟨m, tp, gd3, -, -, heq3, hgd⟩
    · rw [hgd]
      exact ⟨b, hb, hbf, hdep2.trans hdep1, hcache2.trans hcache1,
        hcnt2.trans hcnt1, hnid2.trans hnid1⟩
    · obtain ⟨d3, hd3, hnid3, hdep3, hcache3, hcnt3, hmono3⟩ :=
        trigRel_lookup ((triggerFuel_good fuel).rel _ _ _ _ heq3) g b hb
      rw [hgd]
      exact ⟨d3, hd3, hmono3 hbf, (hdep3.trans hdep2).trans hdep1,
        (hcache3.trans hcache2).trans hcache1,
        (hcnt3.trans hcnt2).trans hcnt1, (hnid3.trans hnid2).trans hnid1⟩

theorem setState_g_unchanged (fuel : Nat) (eng : Engine) (n : NodeId) (k : Key)
    (v : Value) (eng' : Engine) (g : String) (gns : GetterData)
    (h : setState fuel eng n k v = some eng')
    (hl : lookupG eng.gdata g = some gns)
    (hp : gns.depreg.hasPair n k = false)
    (hcs : ∀ q ∈ eng.gdata, gns.depreg.hasPair q.2.nodeId cacheKey = false)
    (hx : keyExists eng.heap n k = true ∨ gns.depreg.hasNode n = false)
    (hsp : ∀ m tp, v = Value.arrRef m →
      heapGet eng.heap n k = Value.arrRef tp →
      gns.depreg.hasPair tp "" = false) :
    lookupG eng'.gdata g = some gns := by
  obtain ⟨-, hc⟩ := setState_steps fuel eng n k v eng' h
  rcases hc with ⟨-, rfl⟩ | ⟨-, gd1, gd2, hs1, heq2, hlast⟩
  · exact hl
  · have hstep1 : lookupG gd1 g = some gns ∧ TrigRel eng.gdata gd1 := by
      rcases hs1 with ⟨-, h'⟩ | ⟨hk, heq1⟩
      · rw [h']
        exact ⟨hl, trigRel_refl _⟩
      · rcases hx with hx | hx
        · exact absurd hx hk
        · refine ⟨(triggerFuel_good fuel).gun _ _ _ _ heq1 g gns hl ?_ hcs,
            (triggerFuel_good fuel).rel _ _ _ _ heq1⟩
          unfold matchCond
          exact hx
    obtain ⟨hl1, hrel1⟩ := hstep1
    have hcs1 : ∀ q ∈ gd1, gns.depreg.hasPair q.2.nodeId cacheKey = false := by
      intro q hq
      obtain ⟨q₀, hq₀, hr⟩ := mem_forall₂ hrel1 q hq
      rw [hr.2.1]
      exact hcs q₀ hq₀
    have hl2 : lookupG gd2 g = some gns := by
      refine (triggerFuel_good fuel).gun _ _ _ _ heq2 g gns hl1 ?_ hcs1
      unfold matchCond
      exact hp
    have hrel2 : TrigRel eng.gdata gd2 :=
      trigRel_trans hrel1 ((triggerFuel_good fuel).rel _ _ _ _ heq2)
    rcases hlast with hgd | ⟨m, tp, gd3, hvm, htp, heq3, hgd⟩
    · rw [hgd]
      exact hl2
    · have hcs2 : ∀ q ∈ gd2, gns.depreg.hasPair q.2.nodeId cacheKey = false := by
        intro q hq
        obtain ⟨q₀, hq₀, hr⟩ := mem_forall₂ hrel2 q hq
        rw [hr.2.1]
        exact hcs q₀ hq₀
      rw [hgd]
      refine (triggerFuel_good fuel).gun _ _ _ _ heq3 g gns hl2 ?_ hcs2
      unfold matchCond
      exact hsp m tp hvm htp

theorem setState_nf (fuel : Nat) (eng : Engine) (n : NodeId) (k : Key)
    (v : Value) (eng' : Engine) (x : String) (xa xb : GetterData)
    (y : String) (ya : GetterData)
    (h : setState fuel eng n k v = some eng')
    (hxa : lookupG eng.gdata x = some xa) (hfa : xa.invalidCache = false)
    (hxb : lookupG eng'.gdata x = some xb) (hfb : xb.invalidCache = true)
    (hya : lookupG eng.gdata y = some ya)
    (hpair : ya.depreg.hasPair xa.nodeId cacheKey = true) :
    ∃ yb, lookupG eng'.gdata y = some yb ∧ yb.invalidCache = true :=
  (setState_nfStep fuel eng n k v eng' h).2 x xa xb hxa hfa hxb hfb y ya hya hpair

/-!
Lemmas about what `track` adds to running effects.
-/

theorem trackFold_keys (n : NodeId) (k : Key) :
    ∀ (stack : List String) (gd : GData),
      (stack.foldl (fun gd h => updateG gd h
        (fun g => { g with depreg := g.depreg.add n k })) gd).map Prod.fst =
      gd.map Prod.fst := by
  intro stack
  induction stack with
  | nil => intro gd; rfl
  | cons s rest ih =>
    intro gd
    rw [List.foldl_cons, ih, keys_updateG]

theorem trackFold_pair_mono (n : NodeId) (k : Key) :
    ∀ (stack : List String) (gd : GData) (h : String) (d : GetterData),
      lookupG gd h = some d → d.depreg.hasPair n k = true →
      ∃ d', lookupG (stack.foldl (fun gd s => updateG gd s
        (fun g => { g with depreg := g.depreg.add n k })) gd) h = some d' ∧
        d'.depreg.hasPair n k = true := by
  intro stack
  induction stack with
  | nil => intro gd h d hd hp; exact ⟨d, hd, hp⟩
  | cons s rest ih =>
    intro gd h d hd hp
    rw [List.foldl_cons]
    by_cases he : h = s
    · subst he
      refine ih _ h { d with depreg := d.depreg.add n k } ?_ ?_
      · rw [lookupG_updateG_self, hd, Option.map_some']
      · exact add_hasPair_mono _ _ _ _ _ hp
    · refine ih _ h d ?_ hp
      rw [lookupG_updateG_ne _ _ _ _ he]
      exact hd

theorem trackFold_hasPair (n : NodeId) (k : Key) :
    ∀ (stack : List String) (gd : GData) (h : String), h ∈ stack →
      ∀ hd, lookupG (stack.foldl (fun gd s => updateG gd s
        (fun g => { g with depreg := g.depreg.add n k })) gd) h = some hd →
      hd.depreg.hasPair n k = true := by
  intro stack
  induction stack with
  | nil => intro gd h hmem; cases hmem
  | cons s rest ih =>
    intro gd h hmem hd hlk
    rw [List.foldl_cons] at hlk
    by_cases he : h = s
    · subst he
      -- the head update inserts the pair; the rest of the fold preserves it
      have hexists : ∃ d₀, lookupG gd h = some d₀ := by
        have hk : h ∈ gd.map Prod.fst := by
          have hk1 := mem_keys_of_lookupG _ _ _ hlk
          rw [trackFold_keys, keys_updateG] at hk1
          exact hk1
        exact lookupG_isSome_of_mem_keys _ _ hk
      obtain ⟨d₀, hd₀⟩ := hexists
      obtain ⟨d', hd', hp'⟩ := trackFold_pair_mono n k rest
        (updateG gd h (fun g => { g with depreg := g.depreg.add n k })) h
        { d₀ with depreg := d₀.depreg.add n k }
        (by rw [lookupG_updateG_self, hd₀, Option.map_some'])
        (add_hasPair_self _ _ _)
      rw [hlk] at hd'
      cases hd'
      exact hp'
    · rcases List.mem_cons.mp hmem with hc | hc
      · exact absurd hc he
      · exact ih _ h hc hd hlk

theorem track_adds (eng : Engine) (n : NodeId) (k : Key)
    (hfn : readRaw eng n k ≠ Value.fnVal) (h : String) (hmem : h ∈ eng.stack)
    (hd : GetterData) (hlk : lookupG (track eng n k).gdata h = some hd) :
    hd.depreg.hasPair n k = true := by
  unfold track at hlk
  rw [if_neg hfn] at hlk
  exact trackFold_hasPair n k eng.stack eng.gdata h hmem hd hlk

/-!
Termination of `trigger` under an acyclic cache-slot dependency graph, and
non-termination on a two-cycle.
-/

theorem trigRel_lookup_rev {gd gd' : GData} (h : TrigRel gd gd') (n : String)
    (b : GetterData) (hb : lookupG gd' n = some b) :
    ∃ a, lookupG gd n = some a ∧ b.nodeId = a.nodeId ∧ b.depreg = a.depreg := by
  induction h with
  | nil => cases hb
  | cons hpq hrest ih =>
    rename_i p q l l'
    obtain ⟨n₁, d₁⟩ := p
    obtain ⟨n₂, d₂⟩ := q
    have hn : n₂ = n₁ := hpq.1
    subst hn
    by_cases he : n₂ = n
    · subst he
      rw [lookupG, if_pos rfl] at hb
      cases hb
      exact ⟨d₁, by rw [lookupG, if_pos rfl], hpq.2.1, hpq.2.2.1⟩
    · rw [lookupG, if_neg he] at hb
      obtain ⟨a, ha, h1, h2⟩ := ih hb
      exact ⟨a, by rw [lookupG, if_neg he]; exact ha, h1, h2⟩

theorem measCond_trigRel {m : String → Nat} {gd gd' : GData}
    (hm : measCond m gd) (h : TrigRel gd gd') : measCond m gd' := by
  intro x xd y yd hx hy hp
  obtain ⟨xa, hxa, hxn, _⟩ := trigRel_lookup_rev h x xd hx
  obtain ⟨ya, hya, _, hyd⟩ := trigRel_lookup_rev h y yd hy
  refine hm x xa y ya hxa hya ?_
  rw [← hyd, ← hxn]
  exact hp

theorem goP_term (recur : GData → NodeId → Option Key → Option GData)
    (m : String → Nat) (B : Nat)
    (hrel : ∀ gd t p gd', recur gd t p = some gd' → TrigRel gd gd')
    (htot : ∀ gd t p, measCond m gd →
      (∀ y yd, lookupG gd y = some yd → matchCond yd t p = true → m y + 1 < B) →
      ∃ gd', recur gd t p = some gd') :
    ∀ names gd t p, measCond m gd →
      (∀ name ∈ names, ∃ a, lookupG gd name = some a) →
      (∀ y yd, lookupG gd y = some yd → matchCond yd t p = true → m y < B) →
      ∃ gd', triggerGoP recur names gd t p = some gd' := by
  intro names
  induction names with
  | nil => intro gd t p _ _ _; exact ⟨gd, by rw [triggerGoP]⟩
  | cons n₀ rest ih =>
    intro gd t p hmeas hsome hbound
    obtain ⟨g₀, hg₀⟩ := hsome n₀ (List.mem_cons_self _ _)
    rw [triggerGoP]
    cases hm : matchCond g₀ t p with
    | false =>
      obtain ⟨gd', hgd'⟩ := ih gd t p hmeas
        (fun name hm' => hsome name (List.mem_cons_of_mem _ hm')) hbound
      refine ⟨gd', ?_⟩
      simp only [hg₀]
      rw [if_neg (show ¬matchCond g₀ t p = true by rw [hm]; exact Bool.false_ne_true)]
      exact hgd'
    | true =>
      have hb₀ : m n₀ < B := hbound n₀ g₀ hg₀ hm
      obtain ⟨gd₂, hgd₂⟩ := htot gd g₀.nodeId (some cacheKey) hmeas (by
        intro y yd hy hmy
        have hy' : yd.depreg.hasPair g₀.nodeId cacheKey = true := hmy
        have := hmeas n₀ g₀ y yd hg₀ hy hy'
        omega)
      have hrel₃ : TrigRel gd (updateG gd₂ n₀
          (fun g => { g with invalidCache := true })) :=
        trigRel_trans (hrel _ _ _ _ hgd₂) (trigRel_updateG_flag gd₂ n₀)
      obtain ⟨gd', hgd'⟩ := ih (updateG gd₂ n₀
          (fun g => { g with invalidCache := true })) t p
        (measCond_trigRel hmeas hrel₃)
        (by
          intro name hm'
          obtain ⟨a, ha⟩ := hsome name (List.mem_cons_of_mem _ hm')
          obtain ⟨b, hb, _⟩ := trigRel_lookup hrel₃ name a ha
          exact ⟨b, hb⟩)
        (by
          intro y yd hy hmy
          obtain ⟨ya, hya, _, hyd⟩ := trigRel_lookup_rev hrel₃ y yd hy
          refine hbound y ya hya ?_
          rw [← matchCond_depreg hyd]
          exact hmy)
      refine ⟨gd', ?_⟩
      simp only [hg₀]
      rw [if_pos hm]
      simp only [hgd₂]
      exact hgd'

theorem triggerFuel_term (m : String → Nat) :
    ∀ fuel gd t p, measCond m gd →
      (∀ y yd, lookupG gd y = some yd → matchCond yd t p = true → m y < fuel) →
      ∃ gd', triggerFuel fuel gd t p = some gd' := by
  intro fuel
  induction fuel with
  | zero =>
    intro gd t p _ hbound
    refine ⟨gd, ?_⟩
    rw [triggerFuel]
    refine goP_nomatch _ _ _ _ _
      (fun name hm => lookupG_isSome_of_mem_keys gd name hm) ?_
    intro name _ a ha
    cases hm : matchCond a t p
    · rfl
    · exact absurd (hbound name a ha hm) (Nat.not_lt_zero _)
  | succ fuel ih =>
    intro gd t p hmeas hbound
    rw [triggerFuel]
    refine goP_term (triggerFuel fuel) m (fuel + 1)
      (fun gd t p gd' h => (triggerFuel_good fuel).rel gd t p gd' h)
      (fun gd t p hmeas' hbound' => ih gd t p hmeas'
        (fun y yd hy hmy => by have := hbound' y yd hy hmy; omega))
      _ gd t p hmeas
      (fun name hm => lookupG_isSome_of_mem_keys gd name hm) hbound

theorem triggerCyc (fuel : Nat) :
    triggerFuel fuel gdCyc 1000 (some cacheKey) = none ∧
    triggerFuel fuel gdCyc 1001 (some cacheKey) = none := by
  induction fuel with
  | zero => exact ⟨rfl, rfl⟩
  | succ fuel ih =>
    constructor
    · rw [triggerFuel]
      show triggerGoP (triggerFuel fuel) ["A", "B"] gdCyc 1000 (some cacheKey) = none
      rw [triggerGoP]
      simp only [show lookupG gdCyc "A" = some gnsCycA from rfl]
      rw [if_neg (show ¬matchCond gnsCycA 1000 (some cacheKey) = true by decide)]
      rw [triggerGoP]
      simp only [show lookupG gdCyc "B" = some gnsCycB from rfl]
      rw [if_pos (show matchCond gnsCycB 1000 (some cacheKey) = true by decide)]
      rw [show gnsCycB.nodeId = 1001 from rfl]
      simp only [ih.2]
    · rw [triggerFuel]
      show triggerGoP (triggerFuel fuel) ["A", "B"] gdCyc 1001 (some cacheKey) = none
      rw [triggerGoP]
      simp only [show lookupG gdCyc "A" = some gnsCycA from rfl]
      rw [if_pos (show matchCond gnsCycA 1001 (some cacheKey) = true by decide)]
      rw [show gnsCycA.nodeId = 1000 from rfl]
      simp only [ih.1]

/-!
Remaining helper lemmas.
-/

theorem runGetter_some_body (bodies : String → Option GBody) (fuel : Nat)
    (eng : Engine) (name : String) (r : Value × Engine)
    (h : runGetter bodies fuel eng name = some r) :
    ∃ b, bodies name = some b := by
  cases fuel with
  | zero => cases h
  | succ fuel =>
    simp only [runGetter] at h
    split at h
    · rename_i gns body _ hbd
      exact ⟨body, hbd⟩
    · cases h

theorem setState_trigRel (fuel : Nat) (eng : Engine) (n : NodeId) (k : Key)
    (v : Value) (eng' : Engine) (h : setState fuel eng n k v = some eng') :
    TrigRel eng.gdata eng'.gdata :=
  (setState_nfStep fuel eng n k v eng' h).1

/-!
Claim theorems.
-/

/-- C4: for every construction input in which some getter name is bound to a
non-function value, construction fails with a `TypeError` whose message names
a getter so bound and the kind of the value supplied — the source's exact
message `Getter "<name>" must be a function ; "<kind>" was given.` — and an
error is returned instead of an engine, so no partially constructed engine
reaches the caller. -/
theorem claim_C4 (gs : List (String × TVal))
    (hbad : ∃ p ∈ gs, getTypeT p.2 ≠ "function") :
    ∃ name v, (name, v) ∈ gs ∧ getTypeT v ≠ "function" ∧
      defineGettersT gs = Except.error
        ("Getter \"" ++ name ++ "\" must be a function ; \"" ++
          getTypeT v ++ "\" was given.") := by
  induction gs with
  | nil =>
    obtain ⟨p, hp, _⟩ := hbad
    cases hp
  | cons q rest ih =>
    obtain ⟨n, g⟩ := q
    by_cases hg : getTypeT g = "function"
    · have hbad' : ∃ p ∈ rest, getTypeT p.2 ≠ "function" := by
        obtain ⟨p, hp, hpn⟩ := hbad
        rcases List.mem_cons.mp hp with hc | hc
        · subst hc
          exact absurd hg hpn
        · exact ⟨p, hc, hpn⟩
      obtain ⟨name, v, hmem, hv, herr⟩ := ih hbad'
      refine ⟨name, v, List.mem_cons_of_mem _ hmem, hv, ?_⟩
      simp only [defineGettersT, defineGetterT, if_pos hg, herr]
    · refine ⟨n, g, List.mem_cons_self _ _, hg, ?_⟩
      simp only [defineGettersT, defineGetterT, if_neg hg]

/-- Witness for C4 at the spec's example: `getters = ⦃x ↦ 5⦄` fails naming
`x` and kind `number`. -/
theorem claim_C4_witness :
    ∃ name v, (name, v) ∈ [("x", TVal.vnum 5)] ∧ getTypeT v ≠ "function" ∧
      defineGettersT [("x", TVal.vnum 5)] = Except.error
        ("Getter \"" ++ name ++ "\" must be a function ; \"" ++
          getTypeT v ++ "\" was given.") :=
  claim_C4 _ ⟨("x", TVal.vnum 5), by simp, by decide⟩

/-- C5: in any sequence of mutation calls, each call whose body returns
normally emits exactly one `mutation` event carrying its name and payload,
after the body completes, in call order (the event log is the in-order
projection of the successful calls); a call whose body throws emits nothing
and the error is returned to the caller unchanged. -/
theorem claim_C5 (bodies : String → Value → Except String Value)
    (calls : List (String × Value)) :
    (runMutationSeq bodies calls).2 = calls.filterMap (fun c =>
      match bodies c.1 c.2 with
      | Except.ok _ => some c
      | Except.error _ => none) ∧
    (runMutationSeq bodies calls).1 = calls.map (fun c => bodies c.1 c.2) := by
  induction calls with
  | nil => exact ⟨rfl, rfl⟩
  | cons c cs ih =>
    cases hb : bodies c.1 c.2 with
    | error e => simp [runMutationSeq, runMutationCall, hb, ih.1, ih.2]
    | ok r => simp [runMutationSeq, runMutationCall, hb, ih.1, ih.2]

/-- C6 counterexample: wrapping an already-wrapped ARRAY is not a no-op.
`arrV 1 []` is itself the result of wrapping `arrV 0 []`, yet wrapping it
again yields the distinct array `arrV 2 []` — `proxifyArray` has no
already-wrapped early return and never tags arrays, so the claim's
"for array/ordered-collection nodes alike" fails. -/
theorem claim_C6_counterexample :
    (proxifyJ (JsVal.arrV 0 []) 1).1 = JsVal.arrV 1 [] ∧
    (proxifyJ (JsVal.arrV 1 []) 2).1 = JsVal.arrV 2 [] ∧
    (proxifyJ (JsVal.arrV 1 []) 2).1 ≠ JsVal.arrV 1 [] := by
  refine ⟨?_, ?_, ?_⟩
  · simp [proxifyJ, proxifyElems]
  · simp [proxifyJ, proxifyElems]
  · have h2 : (proxifyJ (JsVal.arrV 1 []) 2).1 = JsVal.arrV 2 [] := by
      simp [proxifyJ, proxifyElems]
    rw [h2]
    intro hc
    injection hc with h1 _
    exact absurd h1 (by decide)

/-- C6 (amended): wrapping is idempotent on object nodes that already carry
the identity tag — `proxifyObject` returns the input itself, by reference,
with the allocation counter untouched — but arrays never carry the tag and
`proxifyArray` unconditionally builds a fresh clone with a new identity, so
repeated wrapping of an array is not a no-op. -/
theorem claim_C6 :
    (∀ (id : Nat) (fr : Bool) (flds : List (Key × JsVal)) (σ : Nat),
      proxifyJ (JsVal.objV id true fr flds) σ = (JsVal.objV id true fr flds, σ)) ∧
    (∀ (id : Nat) (es : List JsVal) (σ : Nat),
      proxifyJ (JsVal.arrV id es) σ =
        (JsVal.arrV (proxifyElems es σ).2 (proxifyElems es σ).1,
          (proxifyElems es σ).2 + 1)) := by
  constructor
  · intro id fr flds σ
    simp [proxifyJ]
  · intro id es σ
    simp [proxifyJ]

/-- C7 counterexample: for the intercepted write of a (composite) object value
to a fresh key, the trap's trace is collection-trigger, keyed trigger, wrap,
write — the keyed `trigger(node, key)` (index 1) happens BEFORE the value is
wrapped (index 2), refuting the claimed order "wrap the incoming value ...,
then invoke trigger(node, key), then perform the underlying write". -/
theorem claim_C7_counterexample :
    (handlerSet [] "a" (JsVal.objV 77 false false []) 10).2.2 =
      [Act.triggerNode, Act.triggerKey "a", Act.wrapValue, Act.writeSlot "a"] ∧
    (handlerSet [] "a" (JsVal.objV 77 false false []) 10).2.2.get? 1 =
      some (Act.triggerKey "a") ∧
    (handlerSet [] "a" (JsVal.objV 77 false false []) 10).2.2.get? 2 =
      some Act.wrapValue := by
  have h : (handlerSet [] "a" (JsVal.objV 77 false false []) 10).2.2 =
      [Act.triggerNode, Act.triggerKey "a", Act.wrapValue, Act.writeSlot "a"] := by
    simp [handlerSet, jsEq, fieldsGet, fieldsHas, getTypeJ]
  refine ⟨h, ?_, ?_⟩
  · rw [h]
    rfl
  · rw [h]
    rfl

/-- C7 (amended): on an intercepted write, (1) an identical value is a
complete no-op (no trigger, no wrap, no write); (2) a fresh key additionally
issues the collection-wide trigger first; and (3) the remaining steps occur in
the order keyed trigger, then wrap of a composite incoming value, then the
underlying write (for an array written over an array: keyed trigger, then an
in-place splice with wrapped elements and no separate write). -/
theorem claim_C7 (flds : List (Key × JsVal)) (k : Key) (v : JsVal) (σ : Nat) :
    (jsEq v (fieldsGet flds k) = true → handlerSet flds k v σ = (flds, σ, [])) ∧
    (jsEq v (fieldsGet flds k) = false → getTypeJ v = "object" →
      handlerSet flds k v σ = (fieldsSet flds k (proxifyJ v σ).1, (proxifyJ v σ).2,
        (if fieldsHas flds k then [] else [Act.triggerNode]) ++
          [Act.triggerKey k, Act.wrapValue, Act.writeSlot k])) ∧
    (jsEq v (fieldsGet flds k) = false → getTypeJ v ≠ "object" →
      getTypeJ v ≠ "array" →
      handlerSet flds k v σ = (fieldsSet flds k v, σ,
        (if fieldsHas flds k then [] else [Act.triggerNode]) ++
          [Act.triggerKey k, Act.writeSlot k])) ∧
    (∀ ai es tid tes, v = JsVal.arrV ai es → fieldsGet flds k = JsVal.arrV tid tes →
      jsEq v (fieldsGet flds k) = false →
      handlerSet flds k v σ = (fieldsSet flds k (JsVal.arrV tid (proxifyElems es σ).1),
        (proxifyElems es σ).2,
        (if fieldsHas flds k then [] else [Act.triggerNode]) ++
          [Act.triggerKey k, Act.spliceReplace])) := by
  refine ⟨?_, ?_, ?_, ?_⟩
  · intro hsame
    simp only [handlerSet]
    rw [if_pos hsame]
  · intro hdiff hobj
    simp only [handlerSet]
    rw [if_neg (show ¬jsEq v (fieldsGet flds k) = true by
      rw [hdiff]; exact Bool.false_ne_true)]
    rw [if_neg (show ¬getTypeJ v = "array" by rw [hobj]; decide)]
    rw [if_pos hobj]
    simp [List.append_assoc]
  · intro hdiff hobj harr
    simp only [handlerSet]
    rw [if_neg (show ¬jsEq v (fieldsGet flds k) = true by
      rw [hdiff]; exact Bool.false_ne_true)]
    rw [if_neg harr, if_neg hobj]
    simp [List.append_assoc]
  · intro ai es tid tes hv htp hdiff
    subst hv
    simp only [handlerSet]
    rw [if_neg (show ¬jsEq (JsVal.arrV ai es) (fieldsGet flds k) = true by
      rw [hdiff]; exact Bool.false_ne_true)]
    rw [htp]
    rw [if_pos (show getTypeJ (JsVal.arrV ai es) = "array" from rfl)]
    rw [if_pos (show getTypeJ (JsVal.arrV tid tes) = "array" from rfl)]
    simp [List.append_assoc]

/-- Witness for C7: the no-op write of the identical value, and a fresh-key
object write with the trigger-wrap-write trace. -/
theorem claim_C7_witness :
    handlerSet [("a", JsVal.prim 1)] "a" (JsVal.prim 1) 5 =
      ([("a", JsVal.prim 1)], 5, []) ∧
    handlerSet [] "b" (JsVal.objV 3 false false []) 7 =
      (fieldsSet [] "b" (proxifyJ (JsVal.objV 3 false false []) 7).1,
        (proxifyJ (JsVal.objV 3 false false []) 7).2,
        (if fieldsHas ([] : List (Key × JsVal)) "b" then [] else [Act.triggerNode]) ++
          [Act.triggerKey "b", Act.wrapValue, Act.writeSlot "b"]) :=
  ⟨(claim_C7 [("a", JsVal.prim 1)] "a" (JsVal.prim 1) 5).1 (by decide),
   (claim_C7 [] "b" (JsVal.objV 3 false false []) 7).2.1 (by decide) (by decide)⟩

/-- C9 counterexample: after construction the raw input object is NOT
non-reactive — `proxifyObject` writes the identity tag onto the original
`oTarget` before cloning, so `isReactive` returns `true` on the pre-wrap raw
node, refuting "for every raw composite node ... isReactive returns false". -/
theorem claim_C9_counterexample :
    isReactiveJ (JsVal.objV 0 false false []) = false ∧
    wrapEffect (JsVal.objV 0 false false []) = JsVal.objV 0 true false [] ∧
    isReactiveJ (wrapEffect (JsVal.objV 0 false false [])) = true := by
  refine ⟨rfl, ?_, ?_⟩
  · simp [wrapEffect, wrapEffectFields]
  · simp [wrapEffect, wrapEffectFields, isReactiveJ]

/-- C9 (amended): construction tags the raw (non-frozen) object nodes of its
input in place, so after construction `isReactive` returns `true` on them;
raw arrays are never tagged and stay non-reactive; and `isReactive` holds
exactly for `null`/`undefined` and for tag-carrying values. -/
theorem claim_C9 :
    (∀ (id : Nat) (flds : List (Key × JsVal)),
      isReactiveJ (wrapEffect (JsVal.objV id false false flds)) = true) ∧
    (∀ (id : Nat) (es : List JsVal),
      isReactiveJ (wrapEffect (JsVal.arrV id es)) = false) ∧
    (∀ v : JsVal, isReactiveJ v = true ↔
      (v = JsVal.nullV ∨ v = JsVal.undefV ∨
        ∃ id fr flds, v = JsVal.objV id true fr flds)) := by
  refine ⟨?_, ?_, ?_⟩
  · intro id flds
    simp [wrapEffect, isReactiveJ]
  · intro id es
    simp [wrapEffect, isReactiveJ]
  · intro v
    cases v with
    | undefV => simp [isReactiveJ]
    | nullV => simp [isReactiveJ]
    | prim n => simp [isReactiveJ]
    | fnV i => simp [isReactiveJ]
    | arrV i es => simp [isReactiveJ]
    | objV id tg fr flds =>
      simp only [isReactiveJ]
      constructor
      · intro h
        exact Or.inr (Or.inr ⟨id, fr, flds, by rw [h]⟩)
      · rintro (h | h | ⟨id', fr', flds', heq⟩)
        · cases h
        · cases h
        · cases heq
          rfl

/-- C1 counterexample: three concrete runs refute "if g is read twice with no
intervening write to any (node, property) recorded in g's dependency registry,
the getter body executes exactly once".  First run: `g` reads `(1,"a")` only;
the intervening write is to the fresh pair `(1,"b")`, which is NOT in `g`'s
registry, yet the fresh-key collection-wide `trigger(target)` invalidates `g`
and the second read runs the body again (`evalCount` 1 → 2).  Second run:
`g2` read only `g1`'s cache slot; the intervening write to `(1,"a")` is not in
`g2`'s registry, yet the recursive cache-slot trigger invalidates `g2` and its
body runs again.  Third run: `gArr` reduces the array node 2 only, so its
registry holds just `(2, "")`; the intervening write puts array node 3 over
the existing array at `(1, "xs")` — a pair not in the registry, with the key
already present — yet the `splice` wrapper's `trigger(tp, '')` invalidates
`gArr` and the body runs again. -/
theorem claim_C1_counterexample :
    (runGetter bodiesC1 9 engC1 "g" = some (Value.num 5, engC1a) ∧
     (depregOf engC1a "g").hasPair 1 "b" = false ∧
     setState 9 engC1a 1 "b" (Value.num 7) = some engC1b ∧
     runGetter bodiesC1 9 engC1b "g" = some (Value.num 5, engC1c) ∧
     countOf engC1a "g" = 1 ∧ countOf engC1c "g" = 2) ∧
    (runGetter bodiesD 9 engD0 "g1" = some (Value.num 5, engD1) ∧
     runGetter bodiesD 9 engD1 "g2" = some (Value.num 5, engD2) ∧
     (depregOf engD2 "g2").hasPair 1 "a" = false ∧
     setState 9 engD2 1 "a" (Value.num 6) = some engD3 ∧
     runGetter bodiesD 9 engD3 "g2" = some (Value.num 6, engD4) ∧
     countOf engD2 "g2" = 1 ∧ countOf engD4 "g2" = 2) ∧
    (runGetter bodiesE 9 engE0 "gArr" = some (Value.num 0, engE1) ∧
     (depregOf engE1 "gArr").hasPair 1 "xs" = false ∧
     keyExists engE1.heap 1 "xs" = true ∧
     setState 9 engE1 1 "xs" (Value.arrRef 3) = some engE2 ∧
     runGetter bodiesE 9 engE2 "gArr" = some (Value.num 7, engE3) ∧
     countOf engE1 "gArr" = 1 ∧ countOf engE3 "gArr" = 2) := by
  exact ⟨⟨by decide, by decide, by decide, by decide, by decide, by decide⟩,
    ⟨by decide, by decide, by decide, by decide, by decide, by decide, by decide⟩,
    ⟨by decide, by decide, by decide, by decide, by decide, by decide, by decide⟩⟩

/-- C1 (amended): after a successful read of `g`, if every intervening write
is to a node for which NO getter's registry holds any entry (so neither the
keyed trigger nor a fresh key's collection-wide trigger can match), and each
write either carries a non-array value or happens while no registry holds any
array's collection key `(tp, "")` (so the splice wrapper's `trigger(tp, '')`
on an array-over-array write cannot match either), then the getter tables are
untouched, `g` is still valid with the same cached value, the second read
returns the identical cached value while the body is not executed again
(`evalCount` unchanged) — and the second read still tracks `g`'s cache slot
into every running effect (so dependents of `g` are registered), unless the
cached value is a function. -/
theorem claim_C1 (bodies : String → Option GBody) (eng eng₁ eng₂ : Engine)
    (g : String) (f₁ f₂ f₃ : Nat) (v₁ : Value)
    (ws : List (NodeId × Key × Value)) (gns : GetterData)
    (h1 : runGetter bodies f₁ eng g = some (v₁, eng₁))
    (h2 : applyWrites f₂ eng₁ ws = some eng₂)
    (h3 : ∀ w ∈ ws, (∀ q ∈ eng₁.gdata, q.2.depreg.hasNode w.1 = false) ∧
      ((∀ m, w.2.2 ≠ Value.arrRef m) ∨
        ∀ q ∈ eng₁.gdata, ∀ tp, q.2.depreg.hasPair tp "" = false))
    (h4 : lookupG eng₁.gdata g = some gns) :
    gns.invalidCache = false ∧ gns.cache = v₁ ∧ eng₂.gdata = eng₁.gdata ∧
    runGetter bodies (f₃ + 1) eng₂ g =
      some (v₁, track eng₂ gns.nodeId cacheKey) ∧
    countOf (track eng₂ gns.nodeId cacheKey) g = countOf eng₁ g ∧
    (readRaw eng₂ gns.nodeId cacheKey ≠ Value.fnVal →
      ∀ h ∈ eng₂.stack, ∀ hd,
        lookupG (track eng₂ gns.nodeId cacheKey).gdata h = some hd →
        hd.depreg.hasPair gns.nodeId cacheKey = true) := by
  obtain ⟨d, hd, hdi, hdc⟩ := runGetter_post bodies f₁ eng g v₁ eng₁ h1
  rw [h4] at hd
  cases hd
  obtain ⟨hgd, hstk⟩ := applyWrites_untouched f₂ ws eng₁ eng₂ h2 h3
  obtain ⟨body, hbody⟩ := runGetter_some_body bodies f₁ eng g _ h1
  have hl₂ : lookupG eng₂.gdata g = some gns := by rw [hgd]; exact h4
  have hrun := runGetter_valid bodies f₃ eng₂ g gns body hl₂ hbody hdi
  rw [hdc] at hrun
  refine ⟨hdi, hdc, hgd, hrun, ?_, ?_⟩
  · obtain ⟨b, hb, _, _, _, hcnt⟩ :=
      trackRel_lookup (track_gdata_rel eng₂ gns.nodeId cacheKey) g gns hl₂
    simp only [countOf, hb, h4, hcnt]
  · intro hfn h hmem hd' hlk
    exact track_adds eng₂ gns.nodeId cacheKey hfn h hmem hd' hlk

/-- Witness for C1: after reading `g` once, a write to the fresh pair
`(5,"z")` of a node no registry mentions leaves everything valid, and the
second read returns the same cached value without executing the body. -/
theorem claim_C1_witness :
    (⟨Value.num 5, false, 100, ⟨[⟨1, "a"⟩]⟩, 1⟩ : GetterData).invalidCache = false ∧
    (⟨Value.num 5, false, 100, ⟨[⟨1, "a"⟩]⟩, 1⟩ : GetterData).cache = Value.num 5 ∧
    engC1z.gdata = engC1a.gdata ∧
    runGetter bodiesC1 (8 + 1) engC1z "g" =
      some (Value.num 5, track engC1z 100 cacheKey) ∧
    countOf (track engC1z 100 cacheKey) "g" = countOf engC1a "g" ∧
    (readRaw engC1z 100 cacheKey ≠ Value.fnVal →
      ∀ h ∈ engC1z.stack, ∀ hd,
        lookupG (track engC1z 100 cacheKey).gdata h = some hd →
        hd.depreg.hasPair 100 cacheKey = true) :=
  claim_C1 bodiesC1 engC1 engC1a engC1z "g" 9 9 8 (Value.num 5)
    [(5, "z", Value.num 1)] ⟨Value.num 5, false, 100, ⟨[⟨1, "a"⟩]⟩, 1⟩
    (by decide) (by decide)
    (by
      intro w hw
      rcases List.mem_cons.mp hw with hc | hc
      · subst hc
        exact ⟨by decide, Or.inl (by intro m hm; cases hm)⟩
      · cases hc)
    (by decide)

/-- C2 counterexample: three concrete refutations.  Cascade: the write
`state.a = 6` hits a pair that is NOT in `g2`'s registry, yet `g2`'s validity
flag is flipped (via the recursive cache-slot trigger), refuting "the write
leaves the getter unchanged".  No-op: the write of the identical value 5 to
`(1,"a")`, which IS in `g1`'s registry, does not mark `g1` invalid, refuting
"if (node, property) is in the registry, the write marks g invalid".  Splice:
the write of array node 3 over the existing array at `(1,"xs")` — a pair not
in `gArr`'s registry, key already present, no cache slot recorded — still
flips `gArr`'s flag through the splice wrapper's `trigger(tp, '')`. -/
theorem claim_C2_counterexample :
    ((depregOf engD2 "g2").hasPair 1 "a" = false ∧
     invalidOf engD2 "g2" = false ∧
     setState 9 engD2 1 "a" (Value.num 6) = some engD3 ∧
     invalidOf engD3 "g2" = true) ∧
    ((depregOf engD2 "g1").hasPair 1 "a" = true ∧
     setState 9 engD2 1 "a" (Value.num 5) = some engD2 ∧
     invalidOf engD2 "g1" = false) ∧
    ((depregOf engE1 "gArr").hasPair 1 "xs" = false ∧
     (depregOf engE1 "gArr").hasPair 100 cacheKey = false ∧
     keyExists engE1.heap 1 "xs" = true ∧
     invalidOf engE1 "gArr" = false ∧
     setState 9 engE1 1 "xs" (Value.arrRef 3) = some engE2 ∧
     invalidOf engE2 "gArr" = true) := by
  exact ⟨⟨by decide, by decide, by decide, by decide⟩,
    ⟨by decide, by decide, by decide⟩,
    ⟨by decide, by decide, by decide, by decide, by decide, by decide⟩⟩

/-- C2 (amended): for an intercepted write to `(n,k)` and a getter `g`:
if `(n,k)` is not in `g`'s registry, `g`'s registry holds no other getter's
cache slot, (for the fresh-key case) either the key already exists or `g`'s
registry has no entry for the node, and (for an array written over an
existing array, whose splice wrapper fires `trigger(tp, '')`) the overwritten
array's collection pair `(tp, "")` is not in `g`'s registry either, then
`g`'s record — validity flag and cached value — is unchanged by the write; if
`(n,k)` IS in the registry and the written value differs from the current
one, the write marks `g` invalid (cache retained), and `g`'s body is
re-executed before its next successful read returns. -/
theorem claim_C2 (fuel : Nat) (eng : Engine) (n : NodeId) (k : Key)
    (v : Value) (eng' : Engine) (g : String) (gns : GetterData)
    (bodies : String → Option GBody)
    (h : setState fuel eng n k v = some eng')
    (hl : lookupG eng.gdata g = some gns) :
    (gns.depreg.hasPair n k = false →
      (∀ q ∈ eng.gdata, gns.depreg.hasPair q.2.nodeId cacheKey = false) →
      (keyExists eng.heap n k = true ∨ gns.depreg.hasNode n = false) →
      (∀ m tp, v = Value.arrRef m → heapGet eng.heap n k = Value.arrRef tp →
        gns.depreg.hasPair tp "" = false) →
      lookupG eng'.gdata g = some gns) ∧
    (gns.depreg.hasPair n k = true → v ≠ heapGet eng.heap n k →
      ∃ d, lookupG eng'.gdata g = some d ∧ d.invalidCache = true ∧
        d.cache = gns.cache ∧
        ∀ f' w eng'', runGetter bodies f' eng' g = some (w, eng'') →
          ∃ d', lookupG eng''.gdata g = some d' ∧
            d.evalCount + 1 ≤ d'.evalCount) := by
  constructor
  · intro hp hcs hx hsp
    exact setState_g_unchanged fuel eng n k v eng' g gns h hl hp hcs hx hsp
  · intro hp hne
    obtain ⟨d, hd, hdi, _, hdc, _, _⟩ :=
      setState_flags fuel eng n k v eng' g gns h hl hp hne
    refine ⟨d, hd, hdi, hdc, ?_⟩
    intro f' w eng'' hrun
    exact runGetter_invalid_bump bodies f' eng' g d w eng'' hd hdi hrun

/-- Witness for C2: the untracked write `(5,"z")` leaves `g1`'s record
unchanged; the tracked value-changing write `state.a = 6` invalidates `g1`
and forces a body re-execution on the next read. -/
theorem claim_C2_witness :
    lookupG engD2z.gdata "g1" =
      some ⟨Value.num 5, false, 100, ⟨[⟨1, "a"⟩]⟩, 1⟩ ∧
    (∃ d, lookupG engD3.gdata "g1" = some d ∧ d.invalidCache = true ∧
      d.cache = Value.num 5 ∧
      ∀ f' w eng'', runGetter bodiesD f' engD3 "g1" = some (w, eng'') →
        ∃ d', lookupG eng''.gdata "g1" = some d' ∧
          d.evalCount + 1 ≤ d'.evalCount) :=
  ⟨(claim_C2 9 engD2 5 "z" (Value.num 1) engD2z "g1"
      ⟨Value.num 5, false, 100, ⟨[⟨1, "a"⟩]⟩, 1⟩ bodiesD
      (by decide) (by decide)).1 (by decide) (by decide) (by decide)
      (by intro m tp hm htp; cases hm),
   (claim_C2 9 engD2 1 "a" (Value.num 6) engD3 "g1"
      ⟨Value.num 5, false, 100, ⟨[⟨1, "a"⟩]⟩, 1⟩ bodiesD
      (by decide) (by decide)).2 (by decide) (by decide)⟩

/-- C3: if getter `B`'s last evaluation read getter `A`'s result — so `B`'s
registry holds `A`'s cache slot, which `runGetter` tracks unconditionally —
then any intercepted write that invalidates `A` also invalidates `B`
transitively (via the recursive `trigger(gns, '_cache')` on `A`'s record),
even when the written pair is not among `B`'s entries; and `B`'s next
successful read re-executes its body and returns the freshly computed (now
cached, valid) value. -/
theorem claim_C3 (fuel : Nat) (eng : Engine) (n : NodeId) (k : Key)
    (v : Value) (eng' : Engine) (A B : String) (ga gb ga' : GetterData)
    (bodies : String → Option GBody)
    (hA : lookupG eng.gdata A = some ga) (hB : lookupG eng.gdata B = some gb)
    (hdep : gb.depreg.hasPair ga.nodeId cacheKey = true)
    (hvA : ga.invalidCache = false) (_hvB : gb.invalidCache = false)
    (hset : setState fuel eng n k v = some eng')
    (hA' : lookupG eng'.gdata A = some ga') (hinvA : ga'.invalidCache = true) :
    ∃ gb', lookupG eng'.gdata B = some gb' ∧ gb'.invalidCache = true ∧
      gb'.evalCount = gb.evalCount ∧
      ∀ f' w eng'', runGetter bodies f' eng' B = some (w, eng'') →
        ∃ d', lookupG eng''.gdata B = some d' ∧ d'.invalidCache = false ∧
          d'.cache = w ∧ gb.evalCount + 1 ≤ d'.evalCount := by
  obtain ⟨gb', hgb', hgf⟩ :=
    setState_nf fuel eng n k v eng' A ga ga' B gb hset hA hvA hA' hinvA hB hdep
  obtain ⟨gb'', hgb'', _, _, _, hcnt, _⟩ :=
    trigRel_lookup (setState_trigRel fuel eng n k v eng' hset) B gb hB
  rw [hgb'] at hgb''
  cases hgb''
  refine ⟨gb', hgb', hgf, hcnt, ?_⟩
  intro f' w eng'' hrun
  obtain ⟨d', hd', hbump⟩ :=
    runGetter_invalid_bump bodies f' eng' B gb' w eng'' hgb' hgf hrun
  obtain ⟨d'', hd'', hdi'', hdc''⟩ := runGetter_post bodies f' eng' B w eng'' hrun
  rw [hd'] at hd''
  cases hd''
  refine ⟨d', hd', hdi'', hdc'', ?_⟩
  rw [← hcnt]
  exact hbump

/-- Witness for C3 at the two-getter engine: the write `state.a = 6`
invalidates `g1`, hence `g2`, whose next read recomputes. -/
theorem claim_C3_witness :
    ∃ gb', lookupG engD3.gdata "g2" = some gb' ∧ gb'.invalidCache = true ∧
      gb'.evalCount = 1 ∧
      ∀ f' w eng'', runGetter bodiesD f' engD3 "g2" = some (w, eng'') →
        ∃ d', lookupG eng''.gdata "g2" = some d' ∧ d'.invalidCache = false ∧
          d'.cache = w ∧ 1 + 1 ≤ d'.evalCount :=
  claim_C3 9 engD2 1 "a" (Value.num 6) engD3 "g1" "g2"
    ⟨Value.num 5, false, 100, ⟨[⟨1, "a"⟩]⟩, 1⟩
    ⟨Value.num 5, false, 101, ⟨[⟨100, cacheKey⟩]⟩, 1⟩
    ⟨Value.num 5, true, 100, ⟨[⟨1, "a"⟩]⟩, 1⟩
    bodiesD (by decide) (by decide) (by decide) (by decide) (by decide)
    (by decide) (by decide) (by decide)

/-- C8 (evidence of the code bug): the ArrayTest scenario "adding an item by
using index instead of push".  `getSum` reduces `state.items` through the
tracked `reduce` wrapper, so its registry holds `(items-node, "items")` and
the collection pair `(array, "")` — but NOT the index.  The index write
`items[0] = 1` runs no trap (`proxifyArray` installs no `Proxy`), so nothing
is triggered: the cache stays valid and the second read returns the stale 0
without re-executing the body, while a fresh reduction of the array gives 1 —
the value the repository's own test expects. -/
theorem claim_C8 :
    runGetter bodiesC8 9 engC8 "getSum" = some (Value.num 0, engC8a) ∧
    rawIndexWrite engC8a 2 "0" (Value.num 1) = engC8b ∧
    invalidOf engC8b "getSum" = false ∧
    runGetter bodiesC8 9 engC8b "getSum" = some (Value.num 0, engC8b) ∧
    countOf engC8b "getSum" = 1 ∧
    sumNums engC8b.heap 2 = 1 := by
  exact ⟨by decide, by decide, by decide, by decide, by decide, by decide⟩

/-- C10: `trigger`'s recursion carries no guard on the `_invalidCache` flag —
it recurses on every registry match regardless.  It terminates whenever the
relation "getter y's registry holds getter x's cache slot" admits a
decreasing rank `m` (i.e. is acyclic), and the recursion depth needed (the
fuel) is bounded by the matched getters' ranks — one level per link of the
dependency chain.  On the two-getter cycle `gdCyc` (each registry holding the
other's cache slot, both getters ALREADY invalid) the recursion exhausts
every finite depth: `triggerFuel` answers `none` for all fuel. -/
theorem claim_C10 :
    (∀ (m : String → Nat) (fuel : Nat) (gd : GData) (t : NodeId) (p : Option Key),
      measCond m gd →
      (∀ y yd, lookupG gd y = some yd → matchCond yd t p = true → m y < fuel) →
      ∃ gd', triggerFuel fuel gd t p = some gd') ∧
    (∀ fuel, triggerFuel fuel gdCyc 1000 (some cacheKey) = none) :=
  ⟨fun m fuel gd t p hm hb => triggerFuel_term m fuel gd t p hm hb,
   fun fuel => (triggerCyc fuel).1⟩

/-- Witness for C10: on a one-getter table with no cache-slot dependencies
(rank 0 everywhere), fuel 1 suffices for a matching trigger. -/
theorem claim_C10_witness :
    ∃ gd', triggerFuel 1 gdW 5 (some "a") = some gd' :=
  claim_C10.1 (fun _ => 0) 1 gdW 5 (some "a")
    (by
      intro x xd y yd hx hy hp
      simp only [lookupG] at hx hy
      split at hx
      · cases hx
        split at hy
        · cases hy
          exact absurd hp (by decide)
        · cases hy
      · cases hx)
    (fun y yd hy hm => Nat.zero_lt_one)

end RudiReactor
